import Mathlib

/-!
# Verification of the Makistry feature-tree subsystem

Shallow embedding of the parametric feature-history core of the repository:
the feature-tree data model (`app/models/feature_tree.py`), the tree
validator (`app/services/feature_tree_validator.py`), the dependency
resolver and code generator (`app/services/feature_tree_code_generator.py`),
the code parser (`app/services/feature_tree_parser.py`) and the in-place
parameter patcher (`app/services/cadam_style_parameter_extractor.py`,
`app/services/ast_parameter_modifier.py`).

Python dictionaries are embedded as insertion-ordered association lists
(`List (String × α)`); Python sets whose iteration order is never observed
are embedded as lists with set-like insertion; recursive Python functions
are embedded with an explicit fuel argument (running out of fuel models
non-termination / recursion overflow).  Python numbers are embedded as
`Int` (int) and `ℚ` (float, CPython floats on the values appearing here are
exact decimals); `datetime` metadata fields, which no claim observes, are
omitted.
-/

set_option maxHeartbeats 1000000
set_option maxRecDepth 8192

namespace Makistry

/-! ## Python values -/

/-- A Python runtime value as it occurs in parameters and the parser:
`None`, `bool`, `int`, `float` (exact rational), `str`, `list`, `tuple`. -/
inductive PyVal where
  | vnone
  | vbool (b : Bool)
  | vint (n : Int)
  | vfloat (q : ℚ)
  | vstr (s : String)
  | vlist (xs : List PyVal)
  | vtuple (xs : List PyVal)
  deriving Repr

/-- Decimal digits of a natural number, most significant first, with a
structural fuel (the digit count never exceeds the number itself plus one). -/
def natDigitsF : Nat → Nat → List Char
  | 0, _ => []
  | fuel + 1, n =>
    if n < 10 then [Char.ofNat (48 + n)]
    else natDigitsF fuel (n / 10) ++ [Char.ofNat (48 + n % 10)]

/-- Decimal digits of a natural number, most significant first. -/
def natDigits (n : Nat) : List Char := natDigitsF (n + 1) n

/-- `str` of a Python non-negative integer. -/
def natStr (n : Nat) : String := ⟨natDigits n⟩

/-- `str` of a Python `int`. -/
def intStr (n : Int) : String :=
  if n < 0 then "-" ++ natStr n.natAbs else natStr n.natAbs

/-- Fractional decimal digits of `num/den` (`num < den`), up to `fuel` digits,
by long division. -/
def fracDigits : Nat → Nat → Nat → List Char
  | 0, _, _ => []
  | _, 0, _ => []
  | fuel + 1, num, den =>
    if num = 0 then []
    else
      let d := num * 10 / den
      Char.ofNat (48 + d) :: fracDigits fuel (num * 10 % den) den

/-- `str` of a Python `float`, for the exact-decimal rationals that occur in
this system (`5 ↦ "5.0"`, `3/2 ↦ "1.5"`); non-terminating expansions are
truncated at 17 digits like CPython's shortest-roundtrip repr length. -/
def floatStr (q : ℚ) : String :=
  let sign := if q < 0 then "-" else ""
  let n := q.num.natAbs
  let ipart := n / q.den
  let frac := fracDigits 17 (n % q.den) q.den
  sign ++ natStr ipart ++ "." ++ (if frac.isEmpty then "0" else ⟨frac⟩)

/-- The rational `1/10`, as an explicit structure literal (the observable
behaviour of Python's float literal `0.1`, whose `str()` is `"0.1"`). -/
def ratOneTenth : ℚ := ⟨1, 10, by norm_num, by norm_num⟩

/-- Python `repr` of a string (the subset without quote/backslash escaping
subtleties: single quotes around the raw characters, as CPython produces for
strings free of `'` and `\`). -/
def pyReprStr (s : String) : String := "'" ++ s ++ "'"

/-- Python `repr()` of a value, with a structural depth fuel (CPython's
recursion limit caps representable nesting far below the fuel used;
single-element tuple comma elided, unused here). -/
def pyReprF : Nat → PyVal → String
  | _, .vnone => "None"
  | _, .vbool b => if b then "True" else "False"
  | _, .vint n => intStr n
  | _, .vfloat q => floatStr q
  | _, .vstr s => pyReprStr s
  | 0, .vlist _ => "[...]"
  | 0, .vtuple _ => "(...)"
  | fuel + 1, .vlist xs =>
    "[" ++ String.intercalate ", " (xs.map (pyReprF fuel)) ++ "]"
  | fuel + 1, .vtuple xs =>
    "(" ++ String.intercalate ", " (xs.map (pyReprF fuel)) ++ ")"

/-- Python `repr()` of a value. -/
def pyRepr (v : PyVal) : String := pyReprF 1000 v

/-- Python `str()` of a value: like `repr` except strings print raw. -/
def pyStr : PyVal → String
  | .vstr s => s
  | v => pyRepr v

/-! ## Data model (`app/models/feature_tree.py`) -/

/-- `FeatureType` — the closed enum of CAD operation kinds. -/
inductive FeatureType where
  | workplane | sketch | extrude | revolve | loft | sweep
  | box | cylinder | sphere | cone | torus
  | union | difference | intersection
  | fillet | chamfer | mirror | patternLinear | patternCircular
  | assemblyRoot | component | constraint
  | datumPlane | datumAxis | datumPoint
  deriving Repr, DecidableEq

/-- The `str` value of a `FeatureType` member (it is a `str` Enum). -/
def FeatureType.value : FeatureType → String
  | .workplane => "workplane" | .sketch => "sketch" | .extrude => "extrude"
  | .revolve => "revolve" | .loft => "loft" | .sweep => "sweep"
  | .box => "box" | .cylinder => "cylinder" | .sphere => "sphere"
  | .cone => "cone" | .torus => "torus"
  | .union => "union" | .difference => "difference" | .intersection => "intersection"
  | .fillet => "fillet" | .chamfer => "chamfer" | .mirror => "mirror"
  | .patternLinear => "pattern_linear" | .patternCircular => "pattern_circular"
  | .assemblyRoot => "assembly_root" | .component => "component"
  | .constraint => "constraint"
  | .datumPlane => "datum_plane" | .datumAxis => "datum_axis"
  | .datumPoint => "datum_point"

/-- `ParameterType` — the closed enum of parameter kinds. -/
inductive ParameterType where
  | float | integer | string | boolean | vector3d | point3d | angle | length
  deriving Repr, DecidableEq

/-- The `str` value of a `ParameterType` member. -/
def ParameterType.value : ParameterType → String
  | .float => "float" | .integer => "integer" | .string => "string"
  | .boolean => "boolean" | .vector3d => "vector3d" | .point3d => "point3d"
  | .angle => "angle" | .length => "length"

/-- `Parameter` — one named parameter of a feature. -/
structure Parameter where
  name : String
  value : PyVal
  type : ParameterType
  description : Option String := .none
  units : Option String := .none
  minValue : Option ℚ := .none
  maxValue : Option ℚ := .none
  originalVariableName : Option String := .none
  deriving Repr

/-- `FeatureReference` — a reference to a parent feature/entity. -/
structure FeatureReference where
  featureId : String
  entityType : String
  entityIndex : Option Int := .none
  deriving Repr, DecidableEq

/-- `FeatureNode` — one node of the feature tree.  The `created_at` /
`updated_at` / visual fields, which no claim observes, are omitted. -/
structure FeatureNode where
  id : String
  name : String
  featureType : FeatureType
  description : Option String := .none
  parameters : List Parameter := []
  parentReferences : List FeatureReference := []
  childIds : List String := []
  codeFragment : Option String := .none
  isValid : Bool := true
  errorMessage : Option String := .none
  deriving Repr

/-- `FeatureTree` — the complete tree.  `nodes` is a Python dict embedded as
an insertion-ordered association list. -/
structure FeatureTree where
  id : String := "tree"
  projectId : String := "project"
  version : Int := 1
  name : String := "Feature Tree"
  description : Option String := .none
  rootNodeId : Option String := .none
  nodes : List (String × FeatureNode) := []
  regenerationOrder : List String := []
  globalParameters : List Parameter := []
  generatedCode : Option String := .none
  dirty : Bool := false
  needsFullRegeneration : Bool := false
  lastGoodArtifactId : Option String := .none
  createdBy : String := "user"
  deriving Repr

/-! ## Python dict operations on association lists -/

/-- `d[k]` lookup (first matching key; keys are unique in a real dict). -/
def dictLookup (d : List (String × α)) (k : String) : Option α :=
  (d.find? (fun p => p.1 = k)).map (·.2)

/-- `k in d`. -/
def dictContains (d : List (String × α)) (k : String) : Bool :=
  d.any (fun p => p.1 = k)

/-- `d[k] = v`: overwrite in place when the key exists, else append. -/
def dictInsert (d : List (String × α)) (k : String) (v : α) : List (String × α) :=
  if dictContains d k then d.map (fun p => if p.1 = k then (k, v) else p)
  else d ++ [(k, v)]

/-- `del d[k]`. -/
def dictDelete (d : List (String × α)) (k : String) : List (String × α) :=
  d.filter (fun p => ¬ p.1 = k)

/-- `list(d.keys())`. -/
def dictKeys (d : List (String × α)) : List String := d.map (·.1)

/-! ## `FeatureTree` methods -/

/-- `FeatureTree.add_node`: insert the node, append to the regeneration
order, link it into the parent's `child_ids` (if the parent exists and the
id is not already there), and set the root if unset. -/
def FeatureTree.addNode (t : FeatureTree) (node : FeatureNode)
    (parentId : Option String := .none) : FeatureTree :=
  let t1 := { t with
    nodes := dictInsert t.nodes node.id node,
    regenerationOrder := t.regenerationOrder ++ [node.id] }
  let t2 := match parentId with
    | .none => t1
    | .some pid =>
      if dictContains t1.nodes pid then
        { t1 with nodes := t1.nodes.map (fun (p : String × FeatureNode) =>
            if p.1 = pid then
              (p.1, if node.id ∈ p.2.childIds then p.2
                    else { p.2 with childIds := p.2.childIds ++ [node.id] })
            else p) }
      else t1
  match t2.rootNodeId with
  | .none => { t2 with rootNodeId := .some node.id }
  | .some _ => t2

/-- `FeatureTree.remove_node`, fuel-indexed: remove the node, after
recursively removing every id in its (snapshotted) `child_ids`; then erase
the id from every remaining node's `child_ids` (first occurrence, as
`list.remove` does), from the regeneration order, and from `nodes`, updating
the root.  `none` models a recursion that does not terminate within `fuel`
nested levels (the Python code would overflow the stack); the children loop
is the fold over the snapshot list. -/
def removeNodeFuel : Nat → FeatureTree → String → Option FeatureTree
  | 0, _, _ => .none
  | fuel + 1, t, nodeId =>
    match dictLookup t.nodes nodeId with
    | .none => .some t
    | .some node =>
      match node.childIds.foldl
          (fun (acc : Option FeatureTree) c =>
            acc.bind (fun tc => removeNodeFuel fuel tc c))
          (.some t) with
      | .none => .none
      | .some t1 =>
        let nodes2 := t1.nodes.map (fun p => (p.1,
          { p.2 with childIds := p.2.childIds.erase nodeId }))
        let regen2 := t1.regenerationOrder.erase nodeId
        let nodes3 := dictDelete nodes2 nodeId
        let root3 := if t1.rootNodeId = .some nodeId then regen2.head?
                     else t1.rootNodeId
        .some { t1 with nodes := nodes3, regenerationOrder := regen2,
                        rootNodeId := root3 }

/-- The children fold of `remove_node`, named for reasoning. -/
def removeChildrenFuel (fuel : Nat) (cs : List String) (t : FeatureTree) :
    Option FeatureTree :=
  cs.foldl (fun (acc : Option FeatureTree) c =>
    acc.bind (fun tc => removeNodeFuel fuel tc c)) (.some t)

/-- `FeatureTree.get_node_dependencies`, fuel-indexed: depth-first walk over
`parent_references` with a shared `visited` set (threaded through and
returned).  Returns `(visited', dependencies)`; the Python set of
dependencies is embedded as a deduplicated list (only membership is ever
observed).  With fuel `> |nodes|` the fuel never runs out, since every
nested call first adds an unvisited node to `visited`.  The
`for ref in node.parent_references` loop is the inner fold, accumulating
`(visited, dependencies)`. -/
def getDepsFuel : Nat → FeatureTree → String → List String →
    (List String × List String)
  | 0, _, _, visited => (visited, [])
  | fuel + 1, t, nodeId, visited =>
    if ¬ dictContains t.nodes nodeId then (visited, [])
    else if nodeId ∈ visited then (visited, [])
    else
      match dictLookup t.nodes nodeId with
      | .none => (visited ++ [nodeId], [])
      | .some node =>
        node.parentReferences.foldl
          (fun (acc : List String × List String) ref =>
            if dictContains t.nodes ref.featureId then
              let deps1 := if ref.featureId ∈ acc.2 then acc.2
                           else acc.2 ++ [ref.featureId]
              let sub := getDepsFuel fuel t ref.featureId acc.1
              (sub.1, sub.2.foldl
                (fun ds d => if d ∈ ds then ds else ds ++ [d]) deps1)
            else acc)
          (visited ++ [nodeId], [])

/-- `FeatureTree.get_node_dependencies` with a fresh `visited` set and the
standard fuel. -/
def FeatureTree.getNodeDependencies (t : FeatureTree) (nodeId : String) :
    List String :=
  (getDepsFuel (t.nodes.length + 1) t nodeId []).2

/-- `FeatureTree.validate_tree`: circular-dependency errors, then
missing-reference errors, then the regeneration-order/keys set check. -/
def FeatureTree.validateTree (t : FeatureTree) : List String :=
  let cycleErrors := t.nodes.filterMap (fun (p : String × FeatureNode) =>
    if p.1 ∈ t.getNodeDependencies p.1 then
      .some s!"Circular dependency detected for node {p.1}"
    else .none)
  let refErrors := t.nodes.flatMap (fun (p : String × FeatureNode) =>
    p.2.parentReferences.filterMap (fun ref =>
      if ¬ dictContains t.nodes ref.featureId then
        .some s!"Node {p.2.id} references non-existent node {ref.featureId}"
      else .none))
  let regenErrors :=
    if t.regenerationOrder.all (fun i => dictContains t.nodes i) ∧
       (dictKeys t.nodes).all (fun k => k ∈ t.regenerationOrder) then []
    else ["Regeneration order doesn't match node list"]
  cycleErrors ++ refErrors ++ regenErrors

/-! ## Validator (`app/services/feature_tree_validator.py`) -/

/-- `FeatureTreeValidator.valid_parent_types` (sets listed in source order). -/
def validParentTypes : FeatureType → Option (List FeatureType)
  | .sketch => .some [.workplane, .box, .cylinder, .sphere, .extrude, .revolve]
  | .extrude => .some [.sketch]
  | .revolve => .some [.sketch]
  | .box => .some [.workplane]
  | .cylinder => .some [.workplane]
  | .sphere => .some [.workplane]
  | .fillet => .some [.box, .cylinder, .sphere, .extrude, .revolve, .union, .difference]
  | .chamfer => .some [.box, .cylinder, .sphere, .extrude, .revolve, .union, .difference]
  | .union => .some [.box, .cylinder, .sphere, .extrude, .revolve]
  | .difference => .some [.box, .cylinder, .sphere, .extrude, .revolve]
  | _ => .none

/-- `FeatureTreeValidator.solid_types`. -/
def solidTypes : List FeatureType :=
  [.box, .cylinder, .sphere, .extrude, .revolve, .union, .difference]

/-- `FeatureTreeValidator.surface_operation_types`. -/
def surfaceOperationTypes : List FeatureType := [.fillet, .chamfer]

/-- `FeatureTreeValidator.boolean_operation_types` — note that
`INTERSECTION` is *not* a member. -/
def booleanOperationTypes : List FeatureType := [.union, .difference]

/-- `FeatureTreeValidator._validate_parent_references`. -/
def validateParentReferences (t : FeatureTree) (newNode : FeatureNode)
    (parentId : Option String) : List String :=
  match parentId with
  | .some pid =>
    if ¬ dictContains t.nodes pid then [s!"Parent node {pid} does not exist in tree"]
    else validateParentRefsList t newNode
  | .none => validateParentRefsList t newNode
where
  /-- The `for ref in new_node.parent_references` loop. -/
  validateParentRefsList (t : FeatureTree) (newNode : FeatureNode) : List String :=
    newNode.parentReferences.filterMap (fun ref =>
      if ¬ dictContains t.nodes ref.featureId then
        .some s!"Referenced parent node {ref.featureId} does not exist in tree"
      else
        match dictLookup t.nodes ref.featureId, validParentTypes newNode.featureType with
        | .some parentNode, .some validParents =>
          if parentNode.featureType ∉ validParents then
            .some (s!"Invalid parent type: {newNode.featureType.value} cannot be created " ++
              s!"from {parentNode.featureType.value}. Valid parent types: " ++
              "[" ++ String.intercalate ", " (validParents.map (fun ty => pyReprStr ty.value)) ++ "]")
          else .none
        | _, _ => .none)

/-- `FeatureTreeValidator._validate_semantic_constraints` — it accumulates
only warnings (logged, never returned), so the returned error list is
always empty. -/
def validateSemanticConstraints (_t : FeatureTree) (_newNode : FeatureNode)
    (_parentId : Option String) : List String := []

/-- `FeatureTreeValidator._create_temp_tree_with_node`: a fresh tree value
carrying only the copied `nodes` / `regeneration_order` /
`global_parameters` (plus identity fields), with the candidate inserted. -/
def createTempTreeWithNode (t : FeatureTree) (newNode : FeatureNode) : FeatureTree :=
  { projectId := t.projectId, version := t.version, name := t.name,
    createdBy := t.createdBy,
    nodes := dictInsert t.nodes newNode.id newNode,
    regenerationOrder := t.regenerationOrder ++ [newNode.id],
    globalParameters := t.globalParameters }

/-- The `has_cycle` DFS of `_validate_dependencies`: recursion-stack
back-edge detection with shared `visited` / `rec_stack` sets (threaded and
returned; an early `True` return leaves the stack unpopped, as in source).
The `for ref in node.parent_references` loop is the short-circuiting
fold. -/
def hasCycleFuel : Nat → FeatureTree → String → List String → List String →
    (Bool × List String × List String)
  | 0, _, _, visited, recStack => (false, visited, recStack)
  | fuel + 1, t, nodeId, visited, recStack =>
    if nodeId ∈ recStack then (true, visited, recStack)
    else if nodeId ∈ visited then (false, visited, recStack)
    else
      let visited := visited ++ [nodeId]
      let recStack := recStack ++ [nodeId]
      match dictLookup t.nodes nodeId with
      | .none => (false, visited, recStack.erase nodeId)
      | .some node =>
        match node.parentReferences.foldl
            (fun (acc : Bool × List String × List String) ref =>
              if acc.1 then acc
              else hasCycleFuel fuel t ref.featureId acc.2.1 acc.2.2)
            (false, visited, recStack) with
        | (true, v', r') => (true, v', r')
        | (false, v', r') => (false, v', r'.erase nodeId)

/-- `FeatureTreeValidator._validate_dependencies`. -/
def validateDependencies (t : FeatureTree) (newNode : FeatureNode) : List String :=
  let tempTree := createTempTreeWithNode t newNode
  if (hasCycleFuel (tempTree.nodes.length + 1) tempTree newNode.id [] []).1 then
    [s!"Adding node {newNode.id} would create a circular dependency"]
  else []

/-- The resolvable volume-producing parents of a candidate node (the
`solid_parents` list of `_validate_boolean_operation`). -/
def solidParents (t : FeatureTree) (newNode : FeatureNode) : List FeatureNode :=
  newNode.parentReferences.filterMap (fun ref =>
    match dictLookup t.nodes ref.featureId with
    | .some parentNode =>
      if parentNode.featureType ∈ solidTypes then .some parentNode else .none
    | .none => .none)

/-- The error message `_validate_boolean_operation` emits for an arity
violation. -/
def booleanArityMessage (ty : FeatureType) (found : Nat) : String :=
  s!"Boolean operation {ty.value} requires 2 solid parents, " ++
  s!"but only {found} found. Add more solid parent references."

/-- `FeatureTreeValidator._validate_boolean_operation`. -/
def validateBooleanOperation (t : FeatureTree) (newNode : FeatureNode) : List String :=
  if newNode.featureType ∉ booleanOperationTypes then []
  else
    if (solidParents t newNode).length < 2 then
      [booleanArityMessage newNode.featureType (solidParents t newNode).length]
    else []

/-- The forward-dependents adjacency of `_node_affects_result`: all node ids
holding a parent reference to `x` (one occurrence per matching reference, in
node-insertion order), `dependents.get(x, [])` included. -/
def dependentsOf (t : FeatureTree) (x : String) : List String :=
  t.nodes.flatMap (fun (p : String × FeatureNode) =>
    p.2.parentReferences.filterMap (fun r =>
      if r.featureId = x then .some p.1 else .none))

/-- The `traces_to_solid` DFS of `_node_affects_result`, with the shared
`visited` set threaded and returned; the dependents loop is the
short-circuiting fold. -/
def tracesToSolidFuel : Nat → FeatureTree → String → List String →
    (Bool × List String)
  | 0, _, _, visited => (false, visited)
  | fuel + 1, t, currentId, visited =>
    if currentId ∈ visited then (false, visited)
    else
      let visited := visited ++ [currentId]
      match dictLookup t.nodes currentId with
      | .none => (false, visited)
      | .some currentNode =>
        if currentNode.featureType ∈ solidTypes ∧ dependentsOf t currentId = [] then
          (true, visited)
        else
          (dependentsOf t currentId).foldl
            (fun (acc : Bool × List String) d =>
              if acc.1 then acc else tracesToSolidFuel fuel t d acc.2)
            (false, visited)

/-- `FeatureTreeValidator._node_affects_result`. -/
def nodeAffectsResult (t : FeatureTree) (nodeId : String) : Bool :=
  (tracesToSolidFuel (t.nodes.length + 1) t nodeId []).1

/-- `FeatureTreeValidator._validate_result_impact`. -/
def validateResultImpact (t : FeatureTree) (newNode : FeatureNode)
    (_parentId : Option String) : List String :=
  let tempTree := createTempTreeWithNode t newNode
  if ¬ nodeAffectsResult tempTree newNode.id then
    if newNode.featureType ∉ [FeatureType.workplane, FeatureType.sketch] then
      [s!"Node {newNode.name} ({newNode.featureType.value}) will not affect " ++
       "the final model result. Ensure it's properly connected to the dependency chain."]
    else []
  else []

/-- `FeatureTreeValidator.validate_node_addition`: the six checks in order,
returning `(is_valid, errors)`. -/
def validateNodeAddition (t : FeatureTree) (newNode : FeatureNode)
    (parentId : Option String := .none) : Bool × List String :=
  let idErrors :=
    if dictContains t.nodes newNode.id then
      [s!"Node with ID {newNode.id} already exists in tree"]
    else []
  let errors := idErrors
    ++ validateParentReferences t newNode parentId
    ++ validateSemanticConstraints t newNode parentId
    ++ validateDependencies t newNode
    ++ (if newNode.featureType ∈ booleanOperationTypes then
          validateBooleanOperation t newNode
        else [])
    ++ validateResultImpact t newNode parentId
  (errors.length = 0, errors)

/-! ## Dependency resolver (`feature_tree_code_generator.py`) -/

/-- `_build_dependency_graph`, observed at one key: the adjacency list of
`p` collects, over the nodes dict in insertion order, one occurrence of each
node id per parent reference targeting `p` (the imperative dict-append loop
builds exactly this list for every key of `nodes`). -/
def dependencyGraphAt (t : FeatureTree) (p : String) : List String :=
  if dictContains t.nodes p then dependentsOf t p else []

/-- The per-node in-degree computed by `_resolve_dependencies`: the number
of parent references whose target is a key of `nodes` (an `Int`, as Python
decrements below zero).  Ids outside the dict carry degree `0`. -/
def inDegree (t : FeatureTree) (v : String) : Int :=
  match dictLookup t.nodes v with
  | .none => 0
  | .some node =>
    (node.parentReferences.filter (fun r => dictContains t.nodes r.featureId)).length

/-- The `in_degree[dependent] -= 1; if == 0: queue.append(dependent)` body
of the Kahn loop, on the state `(in_degree, newly-enqueued)`. -/
def kahnDecStep (s : (String → Int) × List String) (dep : String) :
    (String → Int) × List String :=
  let v := s.1 dep - 1
  (fun x => if x = dep then v else s.1 x,
   if v = 0 then s.2 ++ [dep] else s.2)

/-- The Kahn queue loop of `_resolve_dependencies`: pop the queue head,
append it to the order, decrement each dependent's degree and enqueue those
that reach zero.  Fuel-indexed; the fuel used by `resolveKahn` never runs
out on a genuine (duplicate-free) nodes dict. -/
def kahnLoop (t : FeatureTree) : Nat → List String → (String → Int) →
    List String → List String
  | 0, _, _, order => order
  | fuel + 1, queue, deg, order =>
    match queue with
    | [] => order
    | current :: rest =>
      let step := (dependencyGraphAt t current).foldl kahnDecStep (deg, [])
      kahnLoop t fuel (rest ++ step.2) step.1 (order ++ [current])

/-- The Kahn phase of `_resolve_dependencies` (before the length check). -/
def resolveKahn (t : FeatureTree) : List String :=
  let seeds := (dictKeys t.nodes).filter (fun v => inDegree t v = 0)
  kahnLoop t (t.nodes.length + 1) seeds (inDegree t) []

/-- `_resolve_dependencies`: the resolved order, falling back to the tree's
stored `regeneration_order` when the Kahn output is incomplete (a cycle).
No exception is raised in either case. -/
def resolveDependencies (t : FeatureTree) : List String :=
  let order := resolveKahn t
  if order.length ≠ t.nodes.length then t.regenerationOrder else order

/-! ## Code generator (`feature_tree_code_generator.py`) -/

/-- Whether `needle` occurs as a substring (Python `needle in hay`). -/
def listInfix (needle : List Char) : List Char → Bool
  | [] => needle.isEmpty
  | c :: rest => needle.isPrefixOf (c :: rest) || listInfix needle rest

/-- Python `needle in hay` on strings. -/
def strContainsSub (hay needle : String) : Bool :=
  listInfix needle.toList hay.toList

/-- Python `s.startswith(pre)`. -/
def strStartsWith (s pre : String) : Bool :=
  pre.toList.isPrefixOf s.toList

/-- Python `s.split(sep)` for a one-character separator, on char lists. -/
def splitOnChar (sep : Char) : List Char → List (List Char)
  | [] => [[]]
  | c :: rest =>
    match splitOnChar sep rest with
    | [] => [[c]]
    | g :: gs => if c = sep then [] :: g :: gs else (c :: g) :: gs

/-- Python `s.split('\n')`. -/
def splitLines (s : String) : List String :=
  (splitOnChar (Char.ofNat 10) s.toList).map (fun cs => ⟨cs⟩)

/-- Python `s.replace(' ', '_')` (a single-character replacement). -/
def replaceSpacesWithUnderscores (s : String) : String :=
  ⟨s.toList.map (fun c => if c = ' ' then '_' else c)⟩

/-- Python `str.isidentifier` (ASCII fragment, which is all this system
emits): nonempty, a letter or underscore first, letters/digits/underscores
after. -/
def isPyIdentifier (s : String) : Bool :=
  match s.toList with
  | [] => false
  | c :: rest =>
    (c.isAlpha || c = '_') && rest.all (fun d => d.isAlphanum || d = '_')

/-- ASCII `str.lower`. -/
def asciiLower (s : String) : String := ⟨s.toList.map Char.toLower⟩

/-- Python truthiness of a value (`bool(v)`). -/
def pyTruthy : PyVal → Bool
  | .vnone => false
  | .vbool b => b
  | .vint n => n ≠ 0
  | .vfloat q => q ≠ 0
  | .vstr s => s ≠ ""
  | .vlist xs => ¬ xs.isEmpty
  | .vtuple xs => ¬ xs.isEmpty

/-- Python `float(str)` on plain decimal literals:
`[-] (digits [. digits] | . digits)`; exponents, `inf`/`nan` and
underscores (never produced here) are not parsed. -/
def pyParseFloat (s : String) : Option ℚ :=
  let cs := s.toList
  let (sign, cs) := match cs with
    | '-' :: rest => ((-1 : ℚ), rest)
    | rest => (1, rest)
  let intPart := cs.takeWhile Char.isDigit
  let rest := cs.dropWhile Char.isDigit
  let iv : ℚ := intPart.foldl (fun a c => a * 10 + ((c.toNat - 48 : ℕ) : ℚ)) 0
  match rest with
  | [] => if intPart.isEmpty then .none else .some (sign * iv)
  | '.' :: frac =>
    if frac.all Char.isDigit ∧ (¬ intPart.isEmpty ∨ ¬ frac.isEmpty) then
      .some (sign * (iv +
        (frac.foldl (fun a c => a * 10 + ((c.toNat - 48 : ℕ) : ℚ)) (0 : ℚ)) /
        (10 : ℚ) ^ frac.length))
    else .none
  | _ => .none

/-- Python `int(str)` on plain integer literals. -/
def pyParseInt (s : String) : Option Int :=
  let cs := s.toList
  let (sign, ds) := match cs with
    | '-' :: rest => ((-1 : Int), rest)
    | rest => (1, rest)
  if ¬ ds.isEmpty ∧ ds.all Char.isDigit then
    .some (sign * (ds.foldl (fun a c => a * 10 + ((c.toNat - 48 : ℕ) : Int)) (0 : Int)))
  else .none

/-- Python `float(v)`; raises (as `Except.error`) on non-numeric input. -/
def pyFloatOf : PyVal → Except String ℚ
  | .vint n => .ok n
  | .vfloat q => .ok q
  | .vbool b => .ok (if b then 1 else 0)
  | .vstr s =>
    match pyParseFloat s with
    | .some q => .ok q
    | .none => .error s!"ValueError: could not convert string to float: {pyReprStr s}"
  | _ => .error "TypeError: float() argument must be a string or a real number"

/-- Python `int(v)`; float values truncate toward zero, strings must be
integer literals. -/
def pyIntOf : PyVal → Except String Int
  | .vint n => .ok n
  | .vfloat q => .ok (q.num.tdiv (q.den : ℤ))
  | .vbool b => .ok (if b then 1 else 0)
  | .vstr s =>
    match pyParseInt s with
    | .some n => .ok n
    | .none => .error s!"ValueError: invalid literal for int() with base 10: {pyReprStr s}"
  | _ => .error "TypeError: int() argument must be a string or a number"

/-- `_format_parameter_value`: format a (usually global) parameter for
emission; `float()`/`int()` conversion failures propagate as exceptions. -/
def formatParameterValue (p : Parameter) : Except String String :=
  if p.type ∈ [ParameterType.float, ParameterType.length, ParameterType.angle] then
    (pyFloatOf p.value).map floatStr
  else if p.type = ParameterType.integer then
    (pyIntOf p.value).map intStr
  else if p.type = ParameterType.string then
    .ok (pyReprStr (pyStr p.value))
  else if p.type = ParameterType.boolean then
    .ok (if pyTruthy p.value then "True" else "False")
  else
    .ok (pyStr p.value)

/-- `_extract_design_parameters`: read the variable/value pairs off the
first `SKETCH` node whose id contains `design_params` and whose name is
`Design Parameters`, keeping only valid-identifier names. -/
def extractDesignParameters (t : FeatureTree) : List (String × PyVal) :=
  match t.nodes.find? (fun p =>
      p.2.featureType = FeatureType.sketch &&
      strContainsSub p.2.id "design_params" &&
      p.2.name = "Design Parameters") with
  | .none => []
  | .some p =>
    p.2.parameters.foldl (fun d param =>
      let varName := match param.originalVariableName with
        | .some s =>
          if s ≠ "" then s
          else replaceSpacesWithUnderscores (asciiLower param.name)
        | .none => replaceSpacesWithUnderscores (asciiLower param.name)
      if varName ≠ "" ∧ isPyIdentifier varName ∧
          varName ∉ ["None", "True", "False"] then
        dictInsert d varName param.value
      else d) []

/-- `_get_variable_name`: the feature-type value, suffixed `_1`, `_2`, …
until it avoids `used_variables`; returns the name and the grown set.  The
candidate list covers the unbounded Python `while`: among `|used| + 2`
pairwise-distinct candidates one is always fresh. -/
def getVariableName (used : List String) (node : FeatureNode) :
    String × List String :=
  let base := asciiLower node.featureType.value
  let candidates := base ::
    (List.range (used.length + 1)).map (fun k => base ++ "_" ++ natStr (k + 1))
  let var := (candidates.find? (fun c => ¬ c ∈ used)).getD
    (base ++ "_" ++ natStr (used.length + 2))
  (var, used ++ [var])

/-- The `{p.name: p.value for p in node.parameters}` dict. -/
def paramsDict (node : FeatureNode) : List (String × PyVal) :=
  node.parameters.foldl (fun d p => dictInsert d p.name p.value) []

/-- `_get_param_value`: first of the candidate names present, else the
default. -/
def getParamValue (params : List (String × PyVal)) (names : List String)
    (default : PyVal) : PyVal :=
  match names.findSome? (fun n => dictLookup params n) with
  | .some v => v
  | .none => default

/-- `_find_workplane_for_sketch`; the unguarded `variables[parent_id]`
lookup raises `KeyError` when the workplane has no emitted variable. -/
def findWorkplaneForSketch (t : FeatureTree) (vars : List (String × String))
    (sketchId : String) : Except String String :=
  match dictLookup t.nodes sketchId with
  | .some sketchNode =>
    match sketchNode.parentReferences with
    | ref :: _ =>
      match dictLookup t.nodes ref.featureId with
      | .some parentNode =>
        if parentNode.featureType = FeatureType.workplane then
          match dictLookup vars ref.featureId with
          | .some v => .ok v
          | .none => .error s!"KeyError: {pyReprStr ref.featureId}"
        else .ok "cq.Workplane()"
      | .none => .ok "cq.Workplane()"
    | [] => .ok "cq.Workplane()"
  | .none => .ok "cq.Workplane()"

/-- `_find_solid_from_sketch`: first node (in dict order) that references
the sketch, produces volume and has an emitted variable. -/
def findSolidFromSketch (t : FeatureTree) (vars : List (String × String))
    (sketchId : String) : String :=
  match t.nodes.find? (fun p =>
      p.2.parentReferences.any (fun r => r.featureId = sketchId) &&
      p.2.featureType ∈ [FeatureType.extrude, FeatureType.revolve, FeatureType.box,
        FeatureType.cylinder, FeatureType.sphere] &&
      dictContains vars p.1) with
  | .some p => (dictLookup vars p.1).getD "cq.Workplane()"
  | .none => "cq.Workplane()"

/-- `_get_base_variable`: parent-reference branch, then the backwards
regeneration-order search, then a fresh workplane. -/
def getBaseVariable (t : FeatureTree) (vars : List (String × String))
    (node : FeatureNode) : Except String String :=
  let viaParent : Option (Except String String) :=
    match node.parentReferences with
    | [] => .none
    | ref :: _ =>
      match dictLookup vars ref.featureId, dictLookup t.nodes ref.featureId with
      | .some parentVar, .some parentNode =>
        if node.featureType = FeatureType.sketch then
          if parentNode.featureType = FeatureType.workplane then .some (.ok parentVar)
          else if parentNode.featureType = FeatureType.sketch then
            .some (findWorkplaneForSketch t vars ref.featureId)
          else .some (.ok "cq.Workplane()")
        else
          if parentNode.featureType = FeatureType.sketch then
            -- the guard `parent_id in variables` holds here, so the
            -- `_find_solid_from_sketch` fallback on its else-arm is dead code
            .some (.ok parentVar)
          else if node.featureType ∈ [FeatureType.extrude, FeatureType.revolve] ∧
              parentNode.featureType ∈ [FeatureType.extrude, FeatureType.box,
                FeatureType.cylinder, FeatureType.sphere, FeatureType.revolve,
                FeatureType.loft, FeatureType.sweep] then
            .some (.ok (parentVar ++ ".faces('>Z').workplane()"))
          else .some (.ok parentVar)
      | _, _ => .none
  match viaParent with
  | .some r => r
  | .none =>
    let nodeIndex : Int := match t.regenerationOrder.indexOf? node.id with
      | .some i => i
      | .none => -1
    let viaOrder : Option String :=
      if nodeIndex > 0 then
        let earlier := (t.regenerationOrder.take nodeIndex.toNat).reverse
        if node.featureType = FeatureType.sketch then
          earlier.findSome? (fun prevId =>
            if dictContains vars prevId then
              match dictLookup t.nodes prevId with
              | .some prevNode =>
                if prevNode.featureType = FeatureType.workplane then
                  dictLookup vars prevId
                else if prevNode.featureType ∈ [FeatureType.box, FeatureType.cylinder,
                    FeatureType.sphere, FeatureType.extrude] then
                  .some "cq.Workplane()"
                else .none
              | .none => .none
            else .none)
        else
          earlier.findSome? (fun prevId =>
            if dictContains vars prevId then
              match dictLookup t.nodes prevId with
              | .some prevNode =>
                if prevNode.featureType ≠ FeatureType.sketch then
                  dictLookup vars prevId
                else .none
              | .none => .none
            else .none)
      else .none
    match viaOrder with
    | .some v => .ok v
    | .none => .ok "cq.Workplane()"

/-- `_get_reference_variable`: the second parent reference when emitted,
else the second-most-recent primitive solid before the node in the
regeneration order; `list.index` raises `ValueError` when the node is
missing from the regeneration order. -/
def getReferenceVariable (t : FeatureTree) (vars : List (String × String))
    (node : FeatureNode) : Except String String :=
  let viaSecondRef : Option String :=
    match node.parentReferences with
    | _ :: second :: _ => dictLookup vars second.featureId
    | _ => .none
  match viaSecondRef with
  | .some v => .ok v
  | .none =>
    match t.regenerationOrder.indexOf? node.id with
    | .none => .error s!"ValueError: {pyReprStr node.id} is not in list"
    | .some nodeIndex =>
      let solidsFound := ((t.regenerationOrder.take nodeIndex).reverse).filterMap
        (fun prevId =>
          if dictContains vars prevId then
            match dictLookup t.nodes prevId with
            | .some prevNode =>
              if prevNode.featureType ∈ [FeatureType.box, FeatureType.cylinder,
                  FeatureType.sphere] then
                dictLookup vars prevId
              else .none
            | .none => .none
          else .none)
      match solidsFound with
      | _ :: v :: _ => .ok v
      | [v] => .ok v
      | [] => .ok "cq.Workplane().box(1, 1, 1)"

/-- `_generate_node_code`: the per-type emission rule (the logging-only
fillet/ineffectiveness scan is omitted; the `variables` re-assignment branch
is dead in the generation loop, which pre-assigns every variable).  Note
there is no `INTERSECTION` branch: it falls to the generic method call. -/
def generateNodeCode (t : FeatureTree) (vars : List (String × String))
    (node : FeatureNode) : Except String String :=
  let params := paramsDict node
  let varName := (dictLookup vars node.id).getD ""
  match node.featureType with
  | .workplane =>
    let plane := pyStr (getParamValue params ["plane"] (.vstr "XY"))
    .ok s!"{varName} = cq.Workplane('{plane}')"
  | .box => do
    let width := pyStr (getParamValue params ["width", "arg_0"] (.vint 1))
    let height := pyStr (getParamValue params ["height", "arg_1"] (.vint 1))
    let depth := pyStr (getParamValue params ["depth", "arg_2"] (.vint 1))
    let baseVar ← getBaseVariable t vars node
    .ok s!"{varName} = {baseVar}.box({width}, {height}, {depth})"
  | .cylinder => do
    let radius := pyStr (getParamValue params ["radius", "arg_0"] (.vint 1))
    let height := pyStr (getParamValue params ["height", "arg_1"] (.vint 1))
    let baseVar ← getBaseVariable t vars node
    .ok s!"{varName} = {baseVar}.cylinder({radius}, {height})"
  | .sphere => do
    let radius := pyStr (getParamValue params ["radius", "arg_0"] (.vint 1))
    let baseVar ← getBaseVariable t vars node
    .ok s!"{varName} = {baseVar}.sphere({radius})"
  | .extrude => do
    let distance := pyStr (getParamValue params ["distance", "arg_0"] (.vint 1))
    let baseVar ← getBaseVariable t vars node
    .ok s!"{varName} = {baseVar}.extrude({distance})"
  | .revolve => do
    let angle := pyStr (getParamValue params ["angle", "arg_0"] (.vint 360))
    let baseVar ← getBaseVariable t vars node
    .ok s!"{varName} = {baseVar}.revolve({angle})"
  | .fillet => do
    let radius := pyStr (getParamValue params ["radius", "arg_0"] (.vfloat ratOneTenth))
    let baseVar ← getBaseVariable t vars node
    .ok s!"{varName} = {baseVar}.edges().fillet({radius})"
  | .chamfer => do
    let distance := pyStr (getParamValue params ["distance", "arg_0"] (.vfloat ratOneTenth))
    let baseVar ← getBaseVariable t vars node
    .ok s!"{varName} = {baseVar}.edges().chamfer({distance})"
  | .union => do
    let baseVar ← getBaseVariable t vars node
    let otherVar ← getReferenceVariable t vars node
    let bo := booleanOperandFix t vars node (baseVar, otherVar)
    let b := bo.1
    let o := bo.2
    .ok s!"{varName} = {b}.union({o})"
  | .difference => do
    let baseVar ← getBaseVariable t vars node
    let otherVar ← getReferenceVariable t vars node
    let bo := booleanOperandFix t vars node (baseVar, otherVar)
    let b := bo.1
    let o := bo.2
    .ok s!"{varName} = {b}.cut({o})"
  | .sketch => do
    let baseVar ← getBaseVariable t vars node
    let radius := pyStr (getParamValue params ["radius", "arg_0"] (.vint 5))
    .ok s!"{varName} = {baseVar}.circle({radius})"
  | _ => do
    let methodName := node.featureType.value
    let baseVar ← getBaseVariable t vars node
    let args :=
      if asciiLower methodName ≠ "sketch" then
        node.parameters.map (fun p =>
          if strStartsWith p.name "arg_" then pyStr p.value
          else p.name ++ "=" ++ pyRepr p.value)
      else []
    let argsStr := String.intercalate ", " args
    .ok s!"{varName} = {baseVar}.{methodName}({argsStr})"
where
  /-- The "never use filleted/chamfered geometries" rewrite of the
  `UNION`/`DIFFERENCE` branches: for each parent reference (by position)
  whose target is a `FILLET`/`CHAMFER` with an emitted first parent,
  replace the corresponding operand with that original parent's variable. -/
  booleanOperandFix (t : FeatureTree) (vars : List (String × String))
      (node : FeatureNode) (init : String × String) : String × String :=
    node.parentReferences.enum.foldl (fun bo (iref : Nat × FeatureReference) =>
      match dictLookup t.nodes iref.2.featureId with
      | .some parentNode =>
        if parentNode.featureType ∈ [FeatureType.fillet, FeatureType.chamfer] then
          match parentNode.parentReferences with
          | origRef :: _ =>
            match dictLookup vars origRef.featureId with
            | .some v => if iref.1 = 0 then (v, bo.2) else (bo.1, v)
            | .none => bo
          | [] => bo
        else bo
      | .none => bo) init

/-- One step of the node-emission loop of `generate_cadquery_code`: skip
ids missing from `nodes` and the design-parameters sketch node, otherwise
pre-assign a variable and emit the node's line (or, when emission raises,
the `# ERROR` diagnostic comment).  State: `(used_variables, variables,
(node id, emitted line) pairs)`. -/
def genStep (t : FeatureTree)
    (st : List String × List (String × String) × List (String × String))
    (nodeId : String) :
    List String × List (String × String) × List (String × String) :=
  match dictLookup t.nodes nodeId with
  | .none => st
  | .some node =>
    if node.featureType = FeatureType.sketch ∧ strContainsSub node.id "design_params" then
      st
    else
      let (varName, used') := getVariableName st.1 node
      let vars' := dictInsert st.2.1 nodeId varName
      match generateNodeCode t vars' node with
      | .ok line =>
        (used', vars', st.2.2 ++ (if line ≠ "" then [(nodeId, line)] else []))
      | .error e =>
        (used', vars', st.2.2 ++
          [(nodeId, s!"# ERROR: Failed to generate code for {node.name}: {e}")])

/-- `_find_result_variable` (the legacy fallback). -/
def findResultVariable (t : FeatureTree) (vars : List (String × String)) : String :=
  let priorityTypes : List (List String) :=
    [["union", "difference", "intersection"], ["fillet", "chamfer"],
     ["extrude", "revolve", "loft", "sweep"], ["box", "cylinder", "sphere", "cone"]]
  if ¬ t.regenerationOrder.isEmpty ∧ ¬ vars.isEmpty then
    let byPriority := priorityTypes.findSome? (fun group =>
      t.regenerationOrder.reverse.findSome? (fun nodeId =>
        if dictContains vars nodeId then
          match dictLookup t.nodes nodeId with
          | .some node =>
            if asciiLower node.featureType.value ∈ group then dictLookup vars nodeId
            else .none
          | .none => .none
        else .none))
    match byPriority with
    | .some v => v
    | .none =>
      match t.regenerationOrder.reverse.findSome? (fun nodeId =>
          if dictContains vars nodeId then dictLookup vars nodeId else .none) with
      | .some v => v
      | .none => "cq.Workplane().box(1, 1, 1)"
  else "cq.Workplane().box(1, 1, 1)"

/-- `_find_result_variable_with_dependencies`: pick the result among leaf
nodes (no dependents, not a workplane) by priority group, most recent
first. -/
def findResultVariableWithDeps (t : FeatureTree) (resolvedOrder : List String)
    (vars : List (String × String)) : String :=
  let leafNodes := resolvedOrder.filter (fun nodeId =>
    dictContains vars nodeId && dictContains t.nodes nodeId &&
    (dependencyGraphAt t nodeId).isEmpty &&
    (match dictLookup t.nodes nodeId with
     | .some node => node.featureType ≠ FeatureType.workplane
     | .none => false))
  let priorityTypes : List (List String) :=
    [["union", "difference", "intersection"], ["fillet", "chamfer"],
     ["extrude", "revolve", "loft", "sweep"], ["box", "cylinder", "sphere", "cone"]]
  let byPriority := priorityTypes.findSome? (fun group =>
    leafNodes.reverse.findSome? (fun nodeId =>
      match dictLookup t.nodes nodeId with
      | .some node =>
        if asciiLower node.featureType.value ∈ group then dictLookup vars nodeId
        else .none
      | .none => .none))
  match byPriority with
  | .some v => v
  | .none =>
    match leafNodes.getLast? with
    | .some resultId => (dictLookup vars resultId).getD ""
    | .none => findResultVariable t vars

/-- The global-parameter emission loop (formatting failures propagate, as
the Python exception escapes `generate_cadquery_code`). -/
def emitGlobalParams (ps : List Parameter) (used : List String) :
    Except String (List String × List String) :=
  ps.foldlM (fun (st : List String × List String) p =>
    if ¬ p.name ∈ st.2 then do
      let v ← formatParameterValue p
      .ok (st.1 ++ [p.name ++ " = " ++ v], st.2 ++ [p.name])
    else .ok st) ([], used)

/-- The design-parameter emission loop. -/
def emitDesignParams (dps : List (String × PyVal)) (used : List String) :
    List String × List String :=
  dps.foldl (fun (st : List String × List String) p =>
    if ¬ p.1 ∈ st.2 then
      (st.1 ++ [p.1 ++ " = " ++ pyStr p.2], st.2 ++ [p.1])
    else st) ([], used)

/-- The full node-emission pass of `generate_cadquery_code`, exposed for
reasoning: returns `(used_variables, variables, (node id, line) pairs)`. -/
def genPairs (t : FeatureTree) (resolvedOrder : List String) (used : List String) :
    List String × List (String × String) × List (String × String) :=
  resolvedOrder.foldl (genStep t) (used, [], [])

/-- `FeatureTreeCodeGenerator.generate_cadquery_code`: resolve the order,
emit the header, global parameters (which can raise), design parameters,
one statement per node (per-node failures degrade to `# ERROR` comments),
and the final `result =` line. -/
def generateCadqueryCode (t : FeatureTree) : Except String String := do
  let resolvedOrder := resolveDependencies t
  let headerLines := ["import cadquery as cq", ""]
  let gp ← emitGlobalParams t.globalParameters []
  let globalLines := if ¬ t.globalParameters.isEmpty then
    ["# Global parameters"] ++ gp.1 ++ [""] else []
  let used1 := if ¬ t.globalParameters.isEmpty then gp.2 else []
  let dps := extractDesignParameters t
  let dp := emitDesignParams dps used1
  let designLines := if ¬ dps.isEmpty then ["# Design parameters"] ++ dp.1 ++ [""] else []
  let used2 := if ¬ dps.isEmpty then dp.2 else used1
  let gens := genPairs t resolvedOrder used2
  let nodeLines := gens.2.2.map Prod.snd
  let resultVar := findResultVariableWithDeps t resolvedOrder gens.2.1
  let lines := headerLines ++ globalLines ++ designLines ++ nodeLines ++
    ["", s!"result = {resultVar}"]
  .ok (String.intercalate "\n" lines)

/-! ## Code parser (`app/services/feature_tree_parser.py`)

The parser's input is the `ast.parse` syntax tree of a script; the Python
`ast` node kinds that can occur in CAD scripts are embedded as `PyAst`
(CPython ≥ 3.8 parses all literals to `Constant`, so the legacy
`ast.Num`/`ast.Str` compatibility branches collapse into the `constant`
case). -/

/-- The binary operators `_extract_value` understands. -/
inductive PyBinOp where
  | add | sub | mult | div | floordiv | mod | pow
  deriving Repr, DecidableEq

/-- The unary operators. -/
inductive PyUnaryOp where
  | usub | uadd | unot | invert
  deriving Repr, DecidableEq

/-- The `ast` node subset reachable from CAD scripts. -/
inductive PyAst where
  | module (body : List PyAst)
  | assign (targets : List PyAst) (value : PyAst) (lineno : Int)
  | call (func : PyAst) (args : List PyAst) (keywords : List (String × PyAst))
      (lineno : Int)
  | attribute (value : PyAst) (attr : String)
  | nameE (id : String)
  | constant (value : PyVal)
  | binop (left : PyAst) (op : PyBinOp) (right : PyAst)
  | unaryop (op : PyUnaryOp) (operand : PyAst)
  | listlit (elts : List PyAst)
  | tuplelit (elts : List PyAst)
  | importstmt (names : List String)
  | importfrom (moduleName : Option String) (names : List String)
  | exprstmt (value : PyAst)
  deriving Repr

/-- `type(node).__name__` for the fallback branches of `_extract_value`. -/
def PyAst.typeName : PyAst → String
  | .module _ => "Module" | .assign _ _ _ => "Assign" | .call _ _ _ _ => "Call"
  | .attribute _ _ => "Attribute" | .nameE _ => "Name" | .constant _ => "Constant"
  | .binop _ _ _ => "BinOp" | .unaryop _ _ => "UnaryOp" | .listlit _ => "List"
  | .tuplelit _ => "Tuple" | .importstmt _ => "Import"
  | .importfrom _ _ => "ImportFrom" | .exprstmt _ => "Expr"

/-- `ast.iter_child_nodes`, in field order. -/
def PyAst.children : PyAst → List PyAst
  | .module body => body
  | .assign targets value _ => targets ++ [value]
  | .call func args keywords _ => func :: args ++ keywords.map Prod.snd
  | .attribute value _ => [value]
  | .binop left _ right => [left, right]
  | .unaryop _ operand => [operand]
  | .listlit elts => elts
  | .tuplelit elts => elts
  | .exprstmt value => [value]
  | _ => []

/-- `ast.walk` (breadth-first with a FIFO queue) emits the tree level by
level; structural fuel over the levels — CPython's recursion limit keeps
every parseable tree's depth far below the fuel used by `astWalk`. -/
def astWalkLevels : Nat → List PyAst → List PyAst
  | 0, _ => []
  | fuel + 1, q =>
    match q with
    | [] => []
    | _ => q ++ astWalkLevels fuel (q.flatMap PyAst.children)

/-- `ast.walk` from one root. -/
def astWalk (a : PyAst) : List PyAst := astWalkLevels 1000 [a]

/-- The operator's class name, for the `<UnaryOp:...>` fallback strings. -/
def PyUnaryOp.opName : PyUnaryOp → String
  | .usub => "USub" | .uadd => "UAdd" | .unot => "Not" | .invert => "Invert"

/-- A Python number as `_extract_value` arithmetic sees it
(`isinstance(v, (int, float))`, which admits `bool`). -/
def pyNumOf : PyVal → Option (ℚ × Bool)
  | .vint n => .some (n, false)
  | .vbool b => .some (if b then 1 else 0, false)
  | .vfloat q => .some (q, true)
  | _ => .none

/-- Wrap an arithmetic result: a float when either operand was one. -/
def mkPyNum (q : ℚ) (isFloat : Bool) : PyVal :=
  if isFloat then .vfloat q else .vint q.num

/-- The `ast.BinOp` arithmetic of `_extract_value`, with its explicit
division-by-zero defaults.  Python's real-valued `**` with a non-integer
exponent (never produced by this repository's scripts) is modelled by the
same numeric default `1.0` the function uses for unresolvable operands. -/
def pyBinArith (op : PyBinOp) (l r : PyVal) : PyVal :=
  match pyNumOf l, pyNumOf r with
  | .some (a, af), .some (b, bf) =>
    match op with
    | .add => mkPyNum (a + b) (af || bf)
    | .sub => mkPyNum (a - b) (af || bf)
    | .mult => mkPyNum (a * b) (af || bf)
    | .div => if b ≠ 0 then .vfloat (a / b) else .vfloat 1
    | .floordiv => if b ≠ 0 then mkPyNum (⌊a / b⌋ : ℚ) (af || bf) else .vfloat 1
    | .mod => if b ≠ 0 then mkPyNum (a - b * (⌊a / b⌋ : ℚ)) (af || bf) else .vfloat 0
    | .pow =>
      if a = 0 ∧ b < 0 then .vfloat 1
      else if b.den = 1 then mkPyNum (a ^ b.num) (af || bf)
      else .vfloat 1
  | _, _ => .vfloat 1

/-- The `ast.UnaryOp` branch of `_extract_value`. -/
def pyUnaryArith (op : PyUnaryOp) (v : PyVal) : PyVal :=
  match op with
  | .usub =>
    (match v with
     | .vint n => .vint (-n)
     | .vfloat q => .vfloat (-q)
     | .vbool b => .vint (if b then -1 else 0)
     | _ => .vstr "<UnaryOp:USub>")
  | .uadd =>
    (match v with
     | .vint n => .vint n
     | .vfloat q => .vfloat q
     | .vbool b => .vint (if b then 1 else 0)
     | _ => .vstr "<UnaryOp:UAdd>")
  | o => .vstr ("<UnaryOp:" ++ o.opName ++ ">")

/-- `FeatureTreeParser._extract_value`, against the parser's current
variable tracker: names resolve through the tracker to numeric values or
degrade to the `1.0` default.  Structural depth fuel; CPython's recursion
limit keeps every real syntax tree far below the fuel used. -/
def extractValueF (tracker : List (String × PyVal)) : Nat → PyAst → PyVal
  | 0, _ => .vfloat 1
  | fuel + 1, a =>
    match a with
    | .constant v => v
    | .nameE varName =>
      (match dictLookup tracker varName with
       | .some resolved =>
         (match resolved with
          | .vint n => .vint n
          | .vfloat q => .vfloat q
          | .vbool b => .vbool b
          | _ => .vfloat 1)
       | .none => .vfloat 1)
    | .listlit elts => .vlist (elts.map (extractValueF tracker fuel))
    | .tuplelit elts => .vtuple (elts.map (extractValueF tracker fuel))
    | .binop left op right =>
      pyBinArith op (extractValueF tracker fuel left) (extractValueF tracker fuel right)
    | .unaryop op operand => pyUnaryArith op (extractValueF tracker fuel operand)
    | other => .vstr ("<" ++ other.typeName ++ ">")

/-- `FeatureTreeParser._extract_value`. -/
def extractValue (tracker : List (String × PyVal)) (a : PyAst) : PyVal :=
  extractValueF tracker 1000 a

/-- `_extract_call_info`. -/
structure CallInfo where
  function : String
  args : List PyVal
  kwargs : List (String × PyVal)
  lineno : Int
  deriving Repr

/-- `_extract_call_info` on a `Call` node (`none` when the callee is
neither a name nor an attribute). -/
def extractCallInfo (tracker : List (String × PyVal)) (func : PyAst)
    (args : List PyAst) (keywords : List (String × PyAst)) (lineno : Int) :
    Option CallInfo :=
  let fname : Option String := match func with
    | .nameE n => .some n
    | .attribute _ attr => .some attr
    | _ => .none
  match fname with
  | .none => .none
  | .some functionName =>
    .some { function := functionName,
            args := args.map (extractValue tracker),
            kwargs := keywords.foldl
              (fun d kv => dictInsert d kv.1 (extractValue tracker kv.2)) [],
            lineno := lineno }

/-- One assignment record of `_analyze_ast`. -/
structure AssignInfo where
  varName : String
  value : PyAst
  lineno : Int

/-- A method chain record. -/
structure ChainInfo where
  chain : List CallInfo
  base : PyVal
  varName : String
  lineno : Int

/-- The `while isinstance(current, ast.Call)` loop of
`_extract_method_chain`: the chain front-to-back plus the non-call base. -/
def methodChainAux (tracker : List (String × PyVal)) : PyAst →
    (List CallInfo × Option PyAst)
  | .call func args keywords lineno =>
    let info := extractCallInfo tracker func args keywords lineno
    let here := match info with | .some i => [i] | .none => []
    (match func with
     | .attribute inner _ =>
       let rest := methodChainAux tracker inner
       (rest.1 ++ here, rest.2)
     | _ => (here, .some (.call func args keywords lineno)))
  | a => ([], .some a)

/-- `_extract_method_chain` (the final `current` is extracted as the
`base`; when the loop walked past the last call the base is that
non-call expression). -/
def extractMethodChain (tracker : List (String × PyVal)) (node : PyAst) :
    Option (List CallInfo × PyVal) :=
  let r := methodChainAux tracker node
  if r.1.isEmpty then .none
  else .some (r.1, match r.2 with
    | .some b => extractValue tracker b
    | .none => .vnone)

/-- `CodeAnalysis` (the never-written `variables` field omitted). -/
structure CodeAnalysis where
  imports : List String
  assignments : List AssignInfo
  functionCalls : List CallInfo
  methodChains : List ChainInfo

/-- `_analyze_ast`: one `ast.walk` pass collecting imports, single-name
assignments and call infos — with the parser's variable tracker still
empty — then the method chains of call-valued assignments. -/
def analyzeAst (a : PyAst) : CodeAnalysis :=
  let walked := astWalk a
  let imports := walked.flatMap (fun n =>
    match n with
    | .importstmt names => names
    | .importfrom m names =>
      names.map (fun aliasName => (m.getD "") ++ "." ++ aliasName)
    | _ => [])
  let assignments := walked.filterMap (fun n =>
    match n with
    | .assign targets value lineno =>
      (match targets with
       | [.nameE varName] => .some ⟨varName, value, lineno⟩
       | _ => .none)
    | _ => .none)
  let functionCalls := walked.filterMap (fun n =>
    match n with
    | .call func args keywords lineno => extractCallInfo [] func args keywords lineno
    | _ => .none)
  let methodChains := assignments.filterMap (fun asn =>
    match asn.value with
    | .call func args keywords lineno =>
      (match extractMethodChain [] (.call func args keywords lineno) with
       | .some (chain, base) =>
         .some ⟨chain, base, asn.varName, asn.lineno⟩
       | .none => .none)
    | _ => .none)
  ⟨imports, assignments, functionCalls, methodChains⟩

/-- `FeatureTreeParser.METHOD_TO_FEATURE`. -/
def methodToFeature : String → Option FeatureType
  | "Workplane" => .some .workplane
  | "workplane" => .some .workplane
  | "rect" => .some .sketch
  | "circle" => .some .sketch
  | "ellipse" => .some .sketch
  | "polygon" => .some .sketch
  | "polyline" => .some .sketch
  | "spline" => .some .sketch
  | "line" => .some .sketch
  | "arc" => .some .sketch
  | "extrude" => .some .extrude
  | "revolve" => .some .revolve
  | "loft" => .some .loft
  | "sweep" => .some .sweep
  | "box" => .some .box
  | "cylinder" => .some .cylinder
  | "sphere" => .some .sphere
  | "cone" => .some .cone
  | "torus" => .some .torus
  | "union" => .some .union
  | "cut" => .some .difference
  | "intersect" => .some .intersection
  | "fuse" => .some .union
  | "fillet" => .some .fillet
  | "chamfer" => .some .chamfer
  | "mirror" => .some .mirror
  | "rarray" => .some .patternLinear
  | "polarArray" => .some .patternCircular
  | _ => .none

/-- The `var_value.replace('.', '').replace('-', '').isdigit()` test of
`_build_variable_tracker`. -/
def isDigitish (s : String) : Bool :=
  let stripped := s.toList.filter (fun c => ¬ (c = '.' ∨ c = '-'))
  ¬ stripped.isEmpty && stripped.all Char.isDigit

/-- One pass of the bounded fixed-point loop of `_build_variable_tracker`:
resolve still-unresolved assignments, converting numeric strings and — on
the last pass only — defaulting the rest to `1.0`.  Returns the grown
tracker and the `resolved_any` flag. -/
def trackerPass (assignments : List AssignInfo) (isLast : Bool)
    (tracker : List (String × PyVal)) : List (String × PyVal) × Bool :=
  assignments.foldl (fun (st : List (String × PyVal) × Bool) asn =>
    if dictContains st.1 asn.varName then st
    else
      let varValue := extractValue st.1 asn.value
      match varValue with
      | .vint _ => (dictInsert st.1 asn.varName varValue, true)
      | .vfloat _ => (dictInsert st.1 asn.varName varValue, true)
      | .vbool _ => (dictInsert st.1 asn.varName varValue, true)
      | .vstr s =>
        if isDigitish s then
          if strContainsSub s "." then
            match pyParseFloat s with
            | .some q => (dictInsert st.1 asn.varName (.vfloat q), true)
            | .none => (dictInsert st.1 asn.varName (.vstr s), st.2)
          else
            match pyParseInt s with
            | .some n => (dictInsert st.1 asn.varName (.vint n), true)
            | .none => (dictInsert st.1 asn.varName (.vstr s), st.2)
        else if isLast then (dictInsert st.1 asn.varName (.vfloat 1), st.2)
        else st
      | _ =>
        if isLast then (dictInsert st.1 asn.varName (.vfloat 1), st.2)
        else st) (tracker, false)

/-- `_build_variable_tracker`: the literal pass, then up to three
fixed-point passes with an early break when nothing new resolves. -/
def buildVariableTracker (analysis : CodeAnalysis) : List (String × PyVal) :=
  let literals := analysis.assignments.foldl (fun tr asn =>
    match asn.value with
    | .constant v => dictInsert tr asn.varName v
    | _ => tr) []
  let (t1, r1) := trackerPass analysis.assignments false literals
  if ¬ r1 then t1
  else
    let (t2, r2) := trackerPass analysis.assignments false t1
    if ¬ r2 then t2
    else (trackerPass analysis.assignments true t2).1

/-- `_infer_parameter_type`. -/
def inferParameterType : PyVal → ParameterType
  | .vbool _ => .boolean
  | .vint _ => .integer
  | .vfloat _ => .float
  | .vstr _ => .string
  | .vlist xs => if xs.length = 3 then .vector3d else .string
  | .vtuple xs => if xs.length = 3 then .vector3d else .string
  | .vnone => .string

/-- `_generate_code_fragment`. -/
def generateCodeFragment (funcName : String) (args : List PyVal)
    (kwargs : List (String × PyVal)) : String :=
  let argStrs := args.map (fun a =>
    match a with
    | .vint _ => pyStr a
    | .vfloat _ => pyStr a
    | .vbool _ => pyStr a
    | .vstr s => pyReprStr s
    | _ => pyRepr a)
  let kwargStrs := kwargs.map (fun kv =>
    match kv.2 with
    | .vint _ => kv.1 ++ "=" ++ pyStr kv.2
    | .vfloat _ => kv.1 ++ "=" ++ pyStr kv.2
    | .vbool _ => kv.1 ++ "=" ++ pyStr kv.2
    | .vstr s => kv.1 ++ "=" ++ pyReprStr s
    | _ => kv.1 ++ "=" ++ pyRepr kv.2)
  let argsStr := String.intercalate ", " (argStrs ++ kwargStrs)
  if funcName ≠ "Workplane" then "." ++ funcName ++ "(" ++ argsStr ++ ")"
  else "cq.Workplane(" ++ argsStr ++ ")"

/-- Whether a value passes `isinstance(v, (int, float, str, bool))`. -/
def isBasicValue : PyVal → Bool
  | .vint _ => true
  | .vfloat _ => true
  | .vstr _ => true
  | .vbool _ => true
  | _ => false

/-- `_create_feature_node_from_call`: node counter and id-supply counter
threaded explicitly (`uuid4` node ids are modelled as the fresh, distinct
strings `uuid_0`, `uuid_1`, …).  Returns the node and the two bumped
counters. -/
def createFeatureNodeFromCall (nodeCounter idCounter : Nat) (call : CallInfo)
    (varName : Option String) (chainIndex : Nat) : FeatureNode × Nat × Nat :=
  let featureType := (methodToFeature call.function).getD .workplane
  let counter' := nodeCounter + 1
  let baseName := match varName with
    | .some v => if v ≠ "" then v else call.function ++ "_" ++ natStr counter'
    | .none => call.function ++ "_" ++ natStr counter'
  let nodeName := if chainIndex > 0 then baseName ++ "_" ++ natStr chainIndex
                  else baseName
  let argParams := call.args.enum.filterMap (fun (ia : Nat × PyVal) =>
    if isBasicValue ia.2 then
      .some ({ name := "arg_" ++ natStr ia.1, value := ia.2,
               type := inferParameterType ia.2 } : Parameter)
    else .none)
  let kwargParams := call.kwargs.filterMap (fun kv =>
    if isBasicValue kv.2 then
      .some ({ name := kv.1, value := kv.2,
               type := inferParameterType kv.2 } : Parameter)
    else .none)
  let node : FeatureNode :=
    { id := "uuid_" ++ natStr idCounter,
      name := nodeName,
      featureType := featureType,
      description := .some s!"Generated from {call.function}() call",
      parameters := argParams ++ kwargParams,
      codeFragment := .some (generateCodeFragment call.function call.args call.kwargs) }
  (node, counter', idCounter + 1)

/-- Parser state threaded through feature extraction. -/
structure ParserState where
  tree : FeatureTree
  tracker : List (String × PyVal)
  nodeCounter : Nat
  idCounter : Nat

/-- `_process_method_chain`: walk the chain, creating a node per mapped
call, linking consecutive links by a `feature` reference, adding each node
to the tree and recording the chain variable's current node id in the
tracker. -/
def processMethodChain (st : ParserState) (chainInfo : ChainInfo) : ParserState :=
  let step := chainInfo.chain.enum.foldl
    (fun (acc : ParserState × Option String) (icall : Nat × CallInfo) =>
      match methodToFeature icall.2.function with
      | .none => acc
      | .some _ =>
        let (node0, counter', idc') := createFeatureNodeFromCall
          acc.1.nodeCounter acc.1.idCounter icall.2 (.some chainInfo.varName) icall.1
        let node := match acc.2 with
          | .some pid =>
            { node0 with parentReferences := node0.parentReferences ++
                [{ featureId := pid, entityType := "feature" }] }
          | .none => node0
        let tree' := acc.1.tree.addNode node acc.2
        let tracker' := dictInsert acc.1.tracker chainInfo.varName (.vstr node.id)
        (⟨tree', tracker', counter', idc'⟩, .some node.id))
    (st, .none)
  step.1

/-- `_resolve_parameter_variables`: substitute string parameter values that
name a tracked numeric variable (node-id strings stay references). -/
def resolveParameterVariables (tree : FeatureTree)
    (tracker : List (String × PyVal)) : FeatureTree :=
  let substitute := fun (param : Parameter) (resolved : PyVal) =>
    { param with value := resolved, type := inferParameterType resolved }
  { tree with nodes := tree.nodes.map (fun (p : String × FeatureNode) =>
      (p.1, { p.2 with parameters := p.2.parameters.map (fun param =>
        match param.value with
        | .vstr s =>
          (match dictLookup tracker s with
           | .some resolved =>
             (match resolved with
              | .vint _ => substitute param resolved
              | .vfloat _ => substitute param resolved
              | .vbool _ => substitute param resolved
              | _ => param)
           | .none => param)
        | _ => param) })) }

/-- `parse_code_to_tree`, from the script's syntax tree (`ast.parse` of the
script text happens outside this embedding): analyze, build the variable
tracker, process the method chains, and post-resolve parameters.  The
standalone `function_calls` loop creates nodes that are immediately
discarded (never added to the tree), so it is elided. -/
def parseCodeToTree (astOfCode : PyAst) (codeText : String)
    (projectId userId : String) : FeatureTree :=
  let tree0 : FeatureTree :=
    { id := "uuid_tree", projectId := projectId, version := 1,
      name := "Parsed Feature Tree", createdBy := userId }
  let analysis := analyzeAst astOfCode
  let tracker := buildVariableTracker analysis
  let st := analysis.methodChains.foldl processMethodChain
    ⟨tree0, tracker, 0, 0⟩
  let tree1 := resolveParameterVariables st.tree st.tracker
  { tree1 with generatedCode := .some codeText }

/-! ## Parameter patcher
(`CADAMStyleParameterExtractor.update_parameter_in_code`) -/

/-- Python regex whitespace `\s` (no newline occurs inside a split line). -/
def isPySpace (c : Char) : Bool :=
  c = ' ' || c = '\t' || c = '\r' || c = '\x0b' || c = '\x0c'

/-- The `^(\s*)(name)\s*=\s*.+` match of `update_parameter_in_code` against
one line: returns the captured indentation when the line is an assignment
of `name` (maximal whitespace prefix, the literal name, optional spaces,
`=`, and at least one further character). -/
def lineAssignMatch (name : String) (line : String) : Option String :=
  let cs := line.toList
  let ws := cs.takeWhile isPySpace
  let rest := cs.drop ws.length
  if name.toList.isPrefixOf rest then
    let after := (rest.drop name.length).dropWhile isPySpace
    match after with
    | '=' :: tail => if ¬ tail.isEmpty then .some ⟨ws⟩ else .none
    | _ => .none
  else .none

/-- The replacement line the patcher writes for a matched assignment. -/
def patchedLine (indent name : String) (newValue : PyVal) : String :=
  let quoted := match newValue with
    | .vstr s => !(isDigitish s)
    | _ => false
  if quoted then indent ++ name ++ " = \"" ++ pyStr newValue ++ "\""
  else indent ++ name ++ " = " ++ pyStr newValue

/-- `update_parameter_in_code`: rewrite every line matching the assignment
pattern for `originalVarName`, leave all other lines untouched; no
exception is raised when nothing matches. -/
def updateParameterInCode (code : String) (originalVarName : String)
    (newValue : PyVal) : String :=
  let lines := splitLines code
  let updated := lines.map (fun line =>
    match lineAssignMatch originalVarName line with
    | .some indent => patchedLine indent originalVarName newValue
    | .none => line)
  String.intercalate "\n" updated

/-! ## A lexical well-formedness check for generated scripts -/

/-- Scanner mode: plain code, inside a single- or double-quoted string, or
inside a `#` comment. -/
inductive LexMode where
  | code | sstr | dstr | comm
  deriving Repr, DecidableEq

/-- One pass of the lexical scanner: bracket depth plus string/comment
state; `none` flags a malformed text (a close bracket at depth zero, a
newline or end of text inside a single-line string literal). -/
def pyLexScan : Nat → LexMode → List Char → Option (Nat × LexMode)
  | d, m, [] =>
    match m with
    | .sstr => .none
    | .dstr => .none
    | _ => .some (d, m)
  | d, .code, c :: rest =>
    if c = '(' ∨ c = '[' ∨ c = '{' then pyLexScan (d + 1) .code rest
    else if c = ')' ∨ c = ']' ∨ c = '}' then
      match d with
      | 0 => .none
      | d' + 1 => pyLexScan d' .code rest
    else if c = '\'' then pyLexScan d .sstr rest
    else if c = '"' then pyLexScan d .dstr rest
    else if c = '#' then pyLexScan d .comm rest
    else pyLexScan d .code rest
  | d, .sstr, c :: rest =>
    if c = '\'' then pyLexScan d .code rest
    else if c = '\\' then
      match rest with
      | [] => .none
      | _ :: r2 => pyLexScan d .sstr r2
    else if c = '\n' then .none
    else pyLexScan d .sstr rest
  | d, .dstr, c :: rest =>
    if c = '"' then pyLexScan d .code rest
    else if c = '\\' then
      match rest with
      | [] => .none
      | _ :: r2 => pyLexScan d .dstr r2
    else if c = '\n' then .none
    else pyLexScan d .dstr rest
  | d, .comm, c :: rest =>
    if c = '\n' then pyLexScan d .code rest
    else pyLexScan d .comm rest

/-- Modelled from the spec: "syntactically parseable as a Python program".
This is a *necessary* lexical condition for CPython to parse a text that
contains no triple-quoted string (the check abstains — accepts — when one
occurs, and no generated script produces one): every round/square/curly
bracket outside string literals and comments balances and never closes
below depth zero, and every single-line string literal closes before its
line (and the text) ends.  A text failing this check is rejected by
`ast.parse` with a `SyntaxError`. -/
def pythonLexOk (s : String) : Bool :=
  if strContainsSub s "'''" ∨ strContainsSub s "\"\"\"" then true
  else
    match pyLexScan 0 .code s.toList with
    | .some (0, .code) => true
    | .some (0, .comm) => true
    | _ => false

/-! ## Graph notions used by the resolver's specification -/

/-- The parent references of the node keyed `v` (empty off the dict). -/
def nodeRefs (t : FeatureTree) (v : String) : List FeatureReference :=
  match dictLookup t.nodes v with
  | .some node => node.parentReferences
  | .none => []

/-- `p —▸ c`: node `c` of the tree holds a parent reference to `p`, with
both endpoints present in `nodes` — the edge relation of the
parent-reference graph. -/
def EdgeRel (t : FeatureTree) (p c : String) : Prop :=
  ∃ n, (c, n) ∈ t.nodes ∧
    (∃ r ∈ n.parentReferences, r.featureId = p) ∧ dictContains t.nodes p = true

/-- The parent-reference graph is acyclic — stated, as usual for finite
graphs, by the existence of a topological ranking. -/
def TopoRanked (t : FeatureTree) : Prop :=
  ∃ rank : String → Nat, ∀ p c, EdgeRel t p c → rank p < rank c

/-- All parent references of all nodes target nodes present in the tree. -/
def RefsClosed (t : FeatureTree) : Prop :=
  ∀ p ∈ t.nodes, ∀ r ∈ (p : String × FeatureNode).2.parentReferences,
    dictContains t.nodes r.featureId = true

/-- An order is topological for the tree: wherever a node occurs, every
in-dict target of its parent references already occurred strictly
earlier. -/
def TopoOrdered (t : FeatureTree) (order : List String) : Prop :=
  ∀ pre c post, order = pre ++ c :: post →
    ∀ r ∈ nodeRefs t c, dictContains t.nodes r.featureId = true →
      r.featureId ∈ pre

/-- How many parent references of `v` target an in-dict node that already
appears in `order` — the number of consumed in-edges of `v`. -/
def ordCount (t : FeatureTree) (order : List String) (v : String) : Nat :=
  ((nodeRefs t v).filter (fun r =>
    dictContains t.nodes r.featureId && decide (r.featureId ∈ order))).length

/-- The list of nodes enqueued while decrementing along `ds` from degree
state `deg` (the second component of the `kahnDecStep` fold, from an empty
accumulator). -/
def nzList (deg : String → Int) : List String → List String
  | [] => []
  | dep :: rest =>
    (if deg dep - 1 = 0 then [dep] else []) ++
      nzList (fun x => if x = dep then deg dep - 1 else deg x) rest

/-- The invariant of the Kahn queue loop: the emitted order and the queue
are duplicate-free node ids; every degree equals the in-degree minus the
consumed in-edges; queued nodes have degree zero, emitted ones nonpositive;
untouched nodes keep a positive degree; and the order so far is
topological. -/
structure KahnInv (t : FeatureTree) (queue : List String)
    (deg : String → Int) (order : List String) : Prop where
  nodup : (order ++ queue).Nodup
  mem : ∀ v ∈ order ++ queue, dictContains t.nodes v = true
  degEq : ∀ v, dictContains t.nodes v = true →
    deg v = inDegree t v - (ordCount t order v : Int)
  zeroQ : ∀ v ∈ queue, deg v = 0
  nonpos : ∀ v ∈ order, deg v ≤ 0
  pending : ∀ v, dictContains t.nodes v = true → v ∉ order → v ∉ queue →
    1 ≤ deg v
  sorted : TopoOrdered t order

/-- A well-formed tree state as the storage layer maintains it: unique node
keys, a duplicate-free regeneration order that is set-equal to the keys, and
per-node child lists that are duplicate-free and only name present nodes. -/
def TreeWF (t : FeatureTree) : Prop :=
  (dictKeys t.nodes).Nodup ∧ t.regenerationOrder.Nodup ∧
  (∀ k ∈ t.regenerationOrder, k ∈ dictKeys t.nodes) ∧
  (∀ k ∈ dictKeys t.nodes, k ∈ t.regenerationOrder) ∧
  ∀ p ∈ t.nodes, (p : String × FeatureNode).2.childIds.Nodup ∧
    ∀ c ∈ (p : String × FeatureNode).2.childIds, dictContains t.nodes c = true

/-- `Descendant t root d`: node `d` is transitively reachable from `root`
through one or more `child_ids` hops, in the (pre-removal) tree `t`. -/
inductive Descendant (t : FeatureTree) (root : String) : String → Prop where
  | child : ∀ c n, dictLookup t.nodes root = .some n → c ∈ n.childIds →
      Descendant t root c
  | step : ∀ a c n, Descendant t root a → dictLookup t.nodes a = .some n →
      c ∈ n.childIds → Descendant t root c

/-! ## Concrete scenario inputs for the claims -/

/-- A plain `feature`-typed reference. -/
def fref (i : String) : FeatureReference := { featureId := i, entityType := "feature" }

/-- A bare node of the given id/type with the given parent references. -/
def mkNode (i : String) (ty : FeatureType) (refs : List String) : FeatureNode :=
  { id := i, name := i, featureType := ty, parentReferences := refs.map fref }

/-- Workplane → box → box: a two-solid acyclic chain (C2's witness). -/
def chainTree : FeatureTree :=
  { nodes := [("w", mkNode "w" .workplane []), ("b1", mkNode "b1" .box ["w"]),
              ("b2", mkNode "b2" .box ["b1"])],
    regenerationOrder := ["w", "b1", "b2"], rootNodeId := .some "w" }

/-- Two boxes referencing each other: a parent-reference 2-cycle, with a
stored regeneration order to fall back to. -/
def cycleTree : FeatureTree :=
  { nodes := [("a", mkNode "a" .box ["b"]), ("b", mkNode "b" .box ["a"])],
    regenerationOrder := ["b", "a"], rootNodeId := .some "a" }

/-- The `ast.parse` syntax tree of the C4 scenario script
`radius=5⏎height=10⏎result=Workplane("XY").cylinder(radius,height)`. -/
def c4Ast : PyAst :=
  .module [
    .assign [.nameE "radius"] (.constant (.vint 5)) 1,
    .assign [.nameE "height"] (.constant (.vint 10)) 2,
    .assign [.nameE "result"]
      (.call (.attribute (.call (.nameE "Workplane") [.constant (.vstr "XY")] [] 3)
        "cylinder") [.nameE "radius", .nameE "height"] [] 3) 3]

/-- The C4 scenario script text. -/
def c4Script : String :=
  "radius=5\nheight=10\nresult=Workplane(\"XY\").cylinder(radius,height)"

/-- The tree the parser builds from the C4 scenario. -/
def c4ParsedTree : FeatureTree := parseCodeToTree c4Ast c4Script "proj" "user"

/-- A script assigning `x` on two different lines (C5's counterexample). -/
def c5Script : String := "x = 1\ny = x\nx = 2"

/-- Workplane, two boxes, a fillet on the first box, and a boolean node
whose operands are the fillet and the second box; `mk` selects the boolean
node's type (C6's two scenarios differ only there). -/
def c6Tree (ty : FeatureType) : FeatureTree :=
  { nodes := [("w", mkNode "w" .workplane []), ("b1", mkNode "b1" .box ["w"]),
              ("b2", mkNode "b2" .box ["w"]), ("f", mkNode "f" .fillet ["b1"]),
              ("u", mkNode "u" ty ["f", "b2"])],
    regenerationOrder := ["w", "b1", "b2", "f", "u"], rootNodeId := .some "w" }

/-- The C6 scenario tree plus an unrelated two-node reference cycle
(`x` ↔ `y`), with a stored regeneration order listing the union *before*
the pre-fillet box: the cycle forces the resolver's fallback to that
stored order, under which the union is emitted while `b1` has no variable
yet, so the pre-fillet rewrite is silently skipped. -/
def c6SkipTree : FeatureTree :=
  { nodes := [("w", mkNode "w" .workplane []), ("b1", mkNode "b1" .box ["w"]),
              ("b2", mkNode "b2" .box ["w"]), ("f", mkNode "f" .fillet ["b1"]),
              ("u", mkNode "u" .union ["f", "b2"]),
              ("x", mkNode "x" .box ["y"]), ("y", mkNode "y" .box ["x"])],
    regenerationOrder := ["w", "u", "b1", "b2", "f", "x", "y"],
    rootNodeId := .some "w" }

/-- A tree holding one box (C7's scenarios). -/
def c7Tree : FeatureTree :=
  { nodes := [("b", mkNode "b" .box [])], regenerationOrder := ["b"],
    rootNodeId := .some "b" }

/-- An `INTERSECTION` candidate with a single solid parent. -/
def c7InterCand : FeatureNode :=
  { mkNode "i" .intersection ["b"] with name := "Inter1" }

/-- A `UNION` candidate with a single solid parent. -/
def c7UnionCand : FeatureNode :=
  { mkNode "u" .union ["b"] with name := "Union1" }

/-- A workplane with a sketch child (C8's tree). -/
def c8Tree : FeatureTree :=
  { nodes := [("w", mkNode "w" .workplane []),
              ("s", { mkNode "s" .sketch ["w"] with name := "SK" })],
    regenerationOrder := ["w", "s"], rootNodeId := .some "w" }

/-- An extrude candidate whose only parent reference targets the workplane. -/
def c8ExtrudeToW : FeatureNode :=
  { mkNode "e" .extrude ["w"] with name := "Extrude1" }

/-- The same extrude candidate re-targeted at the intervening sketch. -/
def c8ExtrudeToS : FeatureNode :=
  { mkNode "e" .extrude ["s"] with name := "Extrude1" }

/-- An empty tree with clear flags (C9's counterexample input). -/
def c9Tree : FeatureTree := { }

/-- A box node to add (C9). -/
def c9Node : FeatureNode := mkNode "b" .box []

/-- One node whose id occurs twice in the regeneration order — which is
still *set*-equal to `nodes.keys()` (C10's counterexample input). -/
def c10Tree : FeatureTree :=
  { nodes := [("a", mkNode "a" .box [])], regenerationOrder := ["a", "a"],
    rootNodeId := .some "a" }

/-- A validated single-workplane tree whose float-typed global parameter
holds a non-numeric string (C1's raising counterexample). -/
def c1RaiseTree : FeatureTree :=
  { nodes := [("w", mkNode "w" .workplane [])], regenerationOrder := ["w"],
    rootNodeId := .some "w",
    globalParameters := [{ name := "p", value := .vstr "abc", type := .float }] }

/-- A validated tree whose vector3d-typed global parameter holds a string
with a stray quote: `str()` interpolates it raw into the script (C1's
lexical counterexample). -/
def c1InjectTree : FeatureTree :=
  { nodes := [("w", mkNode "w" .workplane [])], regenerationOrder := ["w"],
    rootNodeId := .some "w",
    globalParameters := [{ name := "p", value := .vstr "a'b", type := .vector3d }] }

/-- A well-formed two-node parent/child tree (C10's witness input). -/
def c10WitTree : FeatureTree :=
  { nodes := [("w", { mkNode "w" .workplane [] with childIds := ["s"] }),
              ("s", mkNode "s" .sketch ["w"])],
    regenerationOrder := ["w", "s"], rootNodeId := .some "w" }

/-- What `remove_node "w"` leaves of `c10WitTree`: the empty tree. -/
def c10WitResult : FeatureTree := { }

/-! ## Theorems -/

/-- C4: parsing the scenario script yields the claimed two nodes
(WORKPLANE, CYLINDER) — but the cylinder's arguments carry the substituted
numeric default `1.0`, not the values `5.0`/`10.0` of `radius`/`height`,
even though the variable tracker resolved both: `_analyze_ast` extracts
call arguments before `_build_variable_tracker` runs, so the claimed
resolution never reaches the parameters. -/
theorem c4_parser_substitutes_defaults :
    c4ParsedTree.nodes.map (fun p => p.2.featureType) =
      [FeatureType.workplane, FeatureType.cylinder] ∧
    c4ParsedTree.nodes.map (fun p => p.2.parameters.map (fun pa => (pa.name, pa.value))) =
      [[("arg_0", PyVal.vstr "XY")],
       [("arg_0", PyVal.vfloat 1), ("arg_1", PyVal.vfloat 1)]] ∧
    buildVariableTracker (analyzeAst c4Ast) =
      [("radius", PyVal.vint 5), ("height", PyVal.vint 10)] :=
  ⟨rfl, rfl, rfl⟩

/-- C9 (counterexample): at a concrete empty tree with clear flags, a
successful `add_node` followed by a successful `remove_node` leaves both
`dirty` and `needs_full_regeneration` at `false` — the claimed
flag-setting does not happen in these methods. -/
theorem c9_mutations_leave_flags_clear :
    (c9Tree.addNode c9Node .none).dirty = false ∧
    (c9Tree.addNode c9Node .none).needsFullRegeneration = false ∧
    (removeNodeFuel 2 (c9Tree.addNode c9Node .none) "b").map
      (fun t => (t.dirty, t.needsFullRegeneration)) = .some (false, false) :=
  ⟨rfl, rfl, rfl⟩

/-- C10 (counterexample): on a tree whose single node `a` appears twice in
the regeneration order — which is still set-equal to `nodes.keys()` —
`remove_node "a"` deletes the node but erases only the first occurrence
from the order, leaving the stale id behind: afterwards the regeneration
order is no longer set-equal to the remaining keys. -/
theorem c10_duplicate_regen_breaks_set_equality :
    c10Tree.regenerationOrder = ["a", "a"] ∧
    dictKeys c10Tree.nodes = ["a"] ∧
    (removeNodeFuel 2 c10Tree "a").map
      (fun t => (dictKeys t.nodes, t.regenerationOrder)) = .some ([], ["a"]) ∧
    (removeNodeFuel 2 c10Tree "a").map
      (fun t => t.regenerationOrder.all (fun k => dictContains t.nodes k)) =
      .some false :=
  ⟨rfl, rfl, rfl, rfl⟩

/-- C7 (counterexample): an `INTERSECTION` candidate resolving to a single
solid parent is *not* rejected with the solid-parent-count message — the
validator's `boolean_operation_types` omits `INTERSECTION`, so the only
error produced is the unrelated result-impact one. -/
theorem c7_intersection_escapes_arity_check :
    validateNodeAddition c7Tree c7InterCand .none =
      (false, ["Node Inter1 (intersection) will not affect the final model result. Ensure it's properly connected to the dependency chain."]) ∧
    (solidParents c7Tree c7InterCand).length = 1 ∧
    booleanArityMessage FeatureType.intersection 1 ∉
      (validateNodeAddition c7Tree c7InterCand .none).2 ∧
    booleanArityMessage FeatureType.intersection 0 ∉
      (validateNodeAddition c7Tree c7InterCand .none).2 := by
  refine ⟨rfl, rfl, ?_, ?_⟩ <;> decide

/-- C8: against a workplane-with-sketch tree, the EXTRUDE candidate whose
only parent reference targets the workplane is rejected with the
type-compatibility message, and the same candidate re-targeted at the
sketch child passes validation with no errors. -/
theorem c8_extrude_workplane_vs_sketch :
    ((validateNodeAddition c8Tree c8ExtrudeToW (.some "w")).1 = false ∧
     "Invalid parent type: extrude cannot be created from workplane. Valid parent types: ['sketch']"
       ∈ (validateNodeAddition c8Tree c8ExtrudeToW (.some "w")).2) ∧
    validateNodeAddition c8Tree c8ExtrudeToS (.some "s") = (true, []) := by
  refine ⟨⟨?_, ?_⟩, rfl⟩ <;> decide

/-- C3 (counterexample): on a concrete two-node parent-reference cycle the
resolver does not fail — there is no `CycleError` anywhere in the code;
`_resolve_dependencies` itself replaces the empty Kahn output with the
tree's stored regeneration order and returns it to the caller. -/
theorem c3_resolver_returns_fallback_not_error :
    resolveKahn cycleTree = [] ∧
    resolveDependencies cycleTree = ["b", "a"] ∧
    cycleTree.regenerationOrder = ["b", "a"] ∧
    EdgeRel cycleTree "a" "b" ∧ EdgeRel cycleTree "b" "a" := by
  refine ⟨rfl, rfl, rfl, ?_, ?_⟩
  · exact ⟨mkNode "b" .box ["a"], by simp [cycleTree],
      ⟨fref "a", by simp [mkNode, fref], rfl⟩, rfl⟩
  · exact ⟨mkNode "a" .box ["b"], by simp [cycleTree],
      ⟨fref "b", by simp [mkNode, fref], rfl⟩, rfl⟩

/-- C6 (counterexample): an `INTERSECTION` node whose first operand parent
is a `FILLET` is emitted through the generic branch with the fillet's own
variable as its base — the pre-surface-op rewrite applies only to the
`UNION`/`DIFFERENCE` branches. -/
theorem c6_intersection_keeps_fillet_operand :
    generateCadqueryCode (c6Tree .intersection) =
      .ok "import cadquery as cq\n\nworkplane = cq.Workplane('XY')\nbox = workplane.box(1, 1, 1)\nbox_1 = workplane.box(1, 1, 1)\nfillet = box.edges().fillet(0.1)\nintersection = fillet.intersection()\n\nresult = intersection" ∧
    dictLookup
      (genPairs (c6Tree .intersection) (resolveDependencies (c6Tree .intersection)) []).2.1
      "f" = .some "fillet" ∧
    (dictLookup (c6Tree .intersection).nodes "f").map (fun n => n.featureType) =
      .some FeatureType.fillet :=
  ⟨rfl, rfl, rfl⟩

/-- C5 (counterexample): on a script assigning `x` on two separate lines,
the patcher rewrites both — two lines of the output differ from the input,
not exactly one. -/
theorem c5_patch_rewrites_two_lines :
    c5Script = "x = 1\ny = x\nx = 2" ∧
    updateParameterInCode c5Script "x" (.vint 5) = "x = 5\ny = x\nx = 5" ∧
    ((splitLines c5Script).zip
        (splitLines (updateParameterInCode c5Script "x" (.vint 5)))).countP
      (fun pr => decide (¬ pr.1 = pr.2)) = 2 := by
  refine ⟨rfl, rfl, ?_⟩; decide

/-- C1 (counterexample): a tree that passes `validate_tree` (one workplane,
consistent order, no cycles) on which `generate` raises: its float-typed
global parameter holds the non-numeric string `"abc"`, and the
`str(float(param.value))` in `_format_parameter_value` runs outside the
per-node exception guard. -/
theorem c1_generate_raises_on_validated_tree :
    FeatureTree.validateTree c1RaiseTree = [] ∧
    generateCadqueryCode c1RaiseTree =
      .error "ValueError: could not convert string to float: 'abc'" :=
  ⟨rfl, rfl⟩

/-- A bind-chained fold from `none` stays `none`. -/
theorem foldl_bind_none {α β : Type} (g : β → α → Option α) :
    ∀ cs : List β,
      cs.foldl (fun acc c => Option.bind acc (fun x => g c x)) .none = .none := by
  intro cs
  induction cs with
  | nil => rfl
  | cons c cs ih => simpa using ih

/-- `remove_node` never touches the two regeneration flags. -/
theorem removeNodeFuel_flags : ∀ fuel (t : FeatureTree) (nodeId : String)
    (t' : FeatureTree), removeNodeFuel fuel t nodeId = .some t' →
    t'.dirty = t.dirty ∧ t'.needsFullRegeneration = t.needsFullRegeneration := by
  intro fuel
  induction fuel with
  | zero => intro t nodeId t' h; simp [removeNodeFuel] at h
  | succ fuel ih =>
    have hfold : ∀ (cs : List String) (t0 t1 : FeatureTree),
        cs.foldl (fun acc c => Option.bind acc
          (fun tc => removeNodeFuel fuel tc c)) (.some t0) = .some t1 →
        t1.dirty = t0.dirty ∧ t1.needsFullRegeneration = t0.needsFullRegeneration := by
      intro cs
      induction cs with
      | nil => intro t0 t1 h; cases h; exact ⟨rfl, rfl⟩
      | cons c cs ihc =>
        intro t0 t1 h
        simp only [List.foldl_cons, Option.some_bind] at h
        cases hr : removeNodeFuel fuel t0 c with
        | none =>
          rw [hr] at h
          rw [foldl_bind_none] at h
          cases h
        | some tm =>
          rw [hr] at h
          have h1 := ihc tm t1 h
          have h2 := ih t0 c tm hr
          exact ⟨h1.1.trans h2.1, h1.2.trans h2.2⟩
    intro t nodeId t' h
    unfold removeNodeFuel at h
    split at h
    · cases h; exact ⟨rfl, rfl⟩
    · rename_i node hl
      split at h
      · cases h
      · rename_i t1 hf
        cases h
        exact hfold node.childIds t t1 hf

/-- C9 (amended): the `FeatureTree` mutators themselves leave both `dirty`
and `needs_full_regeneration` untouched — `add_node` and (any terminating)
`remove_node` return a tree with exactly the input tree's flag values;
flag-setting lives in the storage layer, not in these methods. -/
theorem c9_mutators_preserve_flags (t : FeatureTree) (node : FeatureNode)
    (parentId : Option String) (fuel : Nat) (nodeId : String) (t' : FeatureTree)
    (h : removeNodeFuel fuel t nodeId = .some t') :
    ((t.addNode node parentId).dirty = t.dirty ∧
     (t.addNode node parentId).needsFullRegeneration = t.needsFullRegeneration) ∧
    (t'.dirty = t.dirty ∧ t'.needsFullRegeneration = t.needsFullRegeneration) := by
  refine ⟨?_, removeNodeFuel_flags fuel t nodeId t' h⟩
  unfold FeatureTree.addNode
  cases parentId <;> dsimp only <;> repeat' split
  all_goals simp

/-- C9 witness: the amended statement at the concrete empty tree. -/
theorem c9_mutators_preserve_flags_witness :
    ((c9Tree.addNode c9Node .none).dirty = c9Tree.dirty ∧
     (c9Tree.addNode c9Node .none).needsFullRegeneration =
       c9Tree.needsFullRegeneration) ∧
    (c9Tree.dirty = c9Tree.dirty ∧
     c9Tree.needsFullRegeneration = c9Tree.needsFullRegeneration) :=
  c9_mutators_preserve_flags c9Tree c9Node .none 2 "zzz" c9Tree rfl

/-- `_validate_boolean_operation` emits exactly the arity message when a
boolean-typed candidate resolves fewer than two solid parents. -/
theorem validateBooleanOperation_arity (t : FeatureTree) (cand : FeatureNode)
    (hty : cand.featureType ∈ booleanOperationTypes)
    (hlt : (solidParents t cand).length < 2) :
    validateBooleanOperation t cand =
      [booleanArityMessage cand.featureType (solidParents t cand).length] := by
  unfold validateBooleanOperation
  rw [if_neg (by simpa using hty), if_pos hlt]

/-- C7 (amended): a `UNION` or `DIFFERENCE` candidate (the validator's
`boolean_operation_types`; `INTERSECTION` is not one — see the
counterexample) whose parent references resolve to fewer than two solid
nodes is rejected, and the error list carries the message reporting the
number of solid parents found. -/
theorem c7_union_difference_arity_rejected (t : FeatureTree)
    (cand : FeatureNode) (parentId : Option String)
    (hty : cand.featureType ∈ booleanOperationTypes)
    (hlt : (solidParents t cand).length < 2) :
    (validateNodeAddition t cand parentId).1 = false ∧
    booleanArityMessage cand.featureType (solidParents t cand).length ∈
      (validateNodeAddition t cand parentId).2 := by
  have hmem : booleanArityMessage cand.featureType (solidParents t cand).length ∈
      (validateNodeAddition t cand parentId).2 := by
    unfold validateNodeAddition
    dsimp only
    rw [if_pos hty, validateBooleanOperation_arity t cand hty hlt]
    simp
  refine ⟨?_, hmem⟩
  have hdef : (validateNodeAddition t cand parentId).1 =
      decide ((validateNodeAddition t cand parentId).2.length = 0) := rfl
  rw [hdef]
  refine decide_eq_false (fun hzero => ?_)
  rw [List.length_eq_zero] at hzero
  rw [hzero] at hmem
  cases hmem

/-- C7 witness: the amended statement at the concrete one-box tree with the
single-solid-parent `UNION` candidate. -/
theorem c7_union_difference_arity_rejected_witness :
    (validateNodeAddition c7Tree c7UnionCand .none).1 = false ∧
    booleanArityMessage c7UnionCand.featureType
      (solidParents c7Tree c7UnionCand).length ∈
      (validateNodeAddition c7Tree c7UnionCand .none).2 :=
  c7_union_difference_arity_rejected c7Tree c7UnionCand .none (by decide) (by decide)

/-- When the patcher's line pattern matches, the captured indentation is
the line's own maximal whitespace prefix. -/
theorem lineAssignMatch_indent (name l : String)
    (h : (lineAssignMatch name l).isSome) :
    lineAssignMatch name l = .some ⟨l.toList.takeWhile isPySpace⟩ := by
  rcases Option.isSome_iff_exists.mp h with ⟨ind, heq⟩
  unfold lineAssignMatch at heq ⊢
  dsimp only at heq ⊢
  split at heq
  · split at heq
    · split at heq
      · simp_all
      · cases heq
    · cases heq
  · cases heq

/-- C5 (amended): when exactly one line of the script matches the
assignment pattern for `source_name`, `update_parameter_in_code` replaces
exactly that line — keeping its original indentation — and every other
line of the output is byte-identical to the input (they are carried over
verbatim); a script that assigns the variable on several lines gets all of
them rewritten, as the counterexample shows. -/
theorem c5_patch_rewrites_only_matching_line (code name : String) (v : PyVal)
    (pre post : List String) (l : String)
    (hsplit : splitLines code = pre ++ l :: post)
    (hl : (lineAssignMatch name l).isSome)
    (hpre : ∀ p ∈ pre, lineAssignMatch name p = .none)
    (hpost : ∀ p ∈ post, lineAssignMatch name p = .none) :
    updateParameterInCode code name v = String.intercalate "\n"
      (pre ++ patchedLine ⟨l.toList.takeWhile isPySpace⟩ name v :: post) := by
  unfold updateParameterInCode
  dsimp only
  rw [hsplit]
  congr 1
  rw [List.map_append, List.map_cons]
  have e1 : pre.map (fun line =>
      match lineAssignMatch name line with
      | .some indent => patchedLine indent name v
      | .none => line) = pre := by
    conv_rhs => rw [show pre = pre.map id from (List.map_id pre).symm]
    refine List.map_congr_left (fun p hp => ?_)
    rw [hpre p hp]
    rfl
  have e2 : post.map (fun line =>
      match lineAssignMatch name line with
      | .some indent => patchedLine indent name v
      | .none => line) = post := by
    conv_rhs => rw [show post = post.map id from (List.map_id post).symm]
    refine List.map_congr_left (fun p hp => ?_)
    rw [hpost p hp]
    rfl
  rw [e1, e2, lineAssignMatch_indent name l hl]

/-- Looking up a cons cell. -/
theorem dictLookup_cons {α : Type} (p : String × α) (rest : List (String × α))
    (k : String) :
    dictLookup (p :: rest) k = if p.1 = k then .some p.2 else dictLookup rest k := by
  unfold dictLookup
  by_cases h : p.1 = k
  · rw [List.find?_cons_of_pos _ (by simpa using h), if_pos h]
    rfl
  · rw [List.find?_cons_of_neg _ (by simpa using h), if_neg h]

/-- Containment in a dict is membership among its keys. -/
theorem dictContains_iff_mem_keys {α : Type} (d : List (String × α)) (k : String) :
    dictContains d k = true ↔ k ∈ dictKeys d := by
  unfold dictContains dictKeys
  rw [List.any_eq_true]
  constructor
  · rintro ⟨p, hp, he⟩
    have hpk : p.1 = k := by simpa using he
    exact hpk ▸ List.mem_map_of_mem _ hp
  · intro hk
    rcases List.mem_map.mp hk with ⟨p, hp, he⟩
    exact ⟨p, hp, by simpa using he⟩

/-- An entry's key is contained. -/
theorem dictContains_of_mem {α : Type} {d : List (String × α)} {k : String}
    {v : α} (h : (k, v) ∈ d) : dictContains d k = true := by
  unfold dictContains
  exact List.any_eq_true.mpr ⟨(k, v), h, by simp⟩

/-- A successful lookup comes from an entry. -/
theorem mem_of_dictLookup {α : Type} {d : List (String × α)} {k : String}
    {v : α} (h : dictLookup d k = .some v) : (k, v) ∈ d := by
  unfold dictLookup at h
  rcases Option.map_eq_some'.mp h with ⟨p, hfind, hv⟩
  have hmem := List.mem_of_find?_eq_some hfind
  have hkey : p.1 = k := by simpa using List.find?_some hfind
  obtain ⟨p1, p2⟩ := p
  simp only at hkey hv
  subst hkey
  subst hv
  exact hmem

/-- A contained key looks up to some value. -/
theorem dictLookup_isSome_of_contains {α : Type} {d : List (String × α)}
    {k : String} (h : dictContains d k = true) :
    ∃ v, dictLookup d k = .some v := by
  unfold dictContains at h
  rcases List.any_eq_true.mp h with ⟨p, hp, he⟩
  have hsome : (d.find? (fun q => q.1 = k)).isSome :=
    List.find?_isSome.mpr ⟨p, hp, he⟩
  rcases Option.isSome_iff_exists.mp hsome with ⟨q, hq⟩
  exact ⟨q.2, by unfold dictLookup; rw [hq]; rfl⟩

/-- Keys-nodup of a cons cell, unpacked. -/
theorem dictKeys_nodup_cons {α : Type} {p : String × α} {rest : List (String × α)}
    (hnd : (dictKeys (p :: rest)).Nodup) :
    p.1 ∉ dictKeys rest ∧ (dictKeys rest).Nodup := by
  unfold dictKeys at hnd ⊢
  rw [List.map_cons] at hnd
  exact ⟨(List.nodup_cons.mp hnd).1, (List.nodup_cons.mp hnd).2⟩

/-- With duplicate-free keys, an entry determines the lookup. -/
theorem dictLookup_of_mem_nodup {α : Type} {d : List (String × α)} {k : String}
    {v : α} (hnd : (dictKeys d).Nodup) (h : (k, v) ∈ d) :
    dictLookup d k = .some v := by
  induction d with
  | nil => cases h
  | cons p rest ih =>
    rcases dictKeys_nodup_cons hnd with ⟨hout, hnd2⟩
    rw [dictLookup_cons]
    rcases List.mem_cons.mp h with rfl | hrest
    · rw [if_pos rfl]
    · have hk : k ∈ dictKeys rest := by
        unfold dictKeys
        exact List.mem_map.mpr ⟨(k, v), hrest, rfl⟩
      have hne : ¬ p.1 = k := fun he => hout (he ▸ hk)
      rw [if_neg hne]
      exact ih hnd2 hrest

/-- `inDegree` counts the in-dict parent references. -/
theorem inDegree_eq_countP (t : FeatureTree) (v : String) :
    inDegree t v =
      ((nodeRefs t v).countP (fun r => dictContains t.nodes r.featureId)) := by
  unfold inDegree nodeRefs
  cases dictLookup t.nodes v <;> simp [List.countP_eq_length_filter]

/-- Counting an id in one node's contribution to the dependents list. -/
theorem count_filterMap_refTo (k v p : String) (refs : List FeatureReference) :
    (refs.filterMap (fun r =>
      if r.featureId = p then (.some k : Option String) else .none)).count v =
    if k = v then refs.countP (fun r => r.featureId = p) else 0 := by
  induction refs with
  | nil => simp
  | cons r rest ih =>
    by_cases hk : k = v
    · subst hk
      by_cases hr : r.featureId = p <;>
        simp [List.filterMap_cons, hr, List.count_cons, List.countP_cons, ih]
    · have hvk : (v == k) = false :=
        beq_eq_false_iff_ne.mpr (fun he => hk he.symm)
      by_cases hr : r.featureId = p <;>
        simp [List.filterMap_cons, hr, hk, List.count_cons, hvk, ih]

/-- How often an id occurs in `dependentsOf t p`: once per parent reference
of that node targeting `p` (duplicate-free keys). -/
theorem count_dependentsOf (t : FeatureTree)
    (hnd : (dictKeys t.nodes).Nodup) (p v : String) :
    (dependentsOf t p).count v = (nodeRefs t v).countP (fun r => r.featureId = p) := by
  unfold dependentsOf nodeRefs
  have main : ∀ (l : List (String × FeatureNode)), (dictKeys l).Nodup →
      (l.flatMap (fun q => q.2.parentReferences.filterMap (fun r =>
        if r.featureId = p then (.some q.1 : Option String) else .none))).count v =
      (match dictLookup l v with
       | .some n => n.parentReferences.countP (fun r => r.featureId = p)
       | .none => 0) := by
    intro l
    induction l with
    | nil => simp [dictLookup]
    | cons q rest ih =>
      intro hnd'
      have hnd2 := dictKeys_nodup_cons hnd'
      rw [List.flatMap_cons, List.count_append, count_filterMap_refTo,
        ih hnd2.2, dictLookup_cons]
      by_cases hq : q.1 = v
      · have hv0 : dictLookup rest v = .none := by
          cases hl : dictLookup rest v with
          | none => rfl
          | some n =>
            have hv : v ∈ dictKeys rest := by
              unfold dictKeys
              exact List.mem_map.mpr ⟨(v, n), mem_of_dictLookup hl, rfl⟩
            exact absurd hv (hq ▸ hnd2.1)
        simp [hq, hv0]
      · simp [hq]
  rw [main t.nodes hnd]
  cases dictLookup t.nodes v <;> simp

/-- Every member of a dependents list is a dict key. -/
theorem mem_dependentsOf_contains {t : FeatureTree} {p v : String}
    (h : v ∈ dependentsOf t p) : dictContains t.nodes v = true := by
  unfold dependentsOf at h
  rcases List.mem_flatMap.mp h with ⟨q, hq, hv⟩
  rcases List.mem_filterMap.mp hv with ⟨r, _, hr⟩
  by_cases hc : r.featureId = p
  · rw [if_pos hc] at hr; cases hr
    exact dictContains_of_mem (show (q.1, q.2) ∈ t.nodes from hq)
  · rw [if_neg hc] at hr; cases hr

/-- The degree component of the Kahn decrement fold: each occurrence
subtracts one. -/
theorem kahnFold_deg (v : String) : ∀ (ds : List String) (deg : String → Int)
    (nz0 : List String),
    (ds.foldl kahnDecStep (deg, nz0)).1 v = deg v - ds.count v := by
  intro ds
  induction ds with
  | nil => intro deg nz0; simp
  | cons dep rest ih =>
    intro deg nz0
    rw [List.foldl_cons,
      show kahnDecStep (deg, nz0) dep =
        ((fun x => if x = dep then deg dep - 1 else deg x),
         (if deg dep - 1 = 0 then nz0 ++ [dep] else nz0)) from rfl,
      ih]
    by_cases hv : v = dep
    · subst hv
      simp [List.count_cons]
      omega
    · simp [hv, Ne.symm hv, List.count_cons]

/-- The enqueue component of the Kahn decrement fold is `nzList`. -/
theorem kahnFold_nz : ∀ (ds : List String) (deg : String → Int)
    (nz0 : List String),
    (ds.foldl kahnDecStep (deg, nz0)).2 = nz0 ++ nzList deg ds := by
  intro ds
  induction ds with
  | nil => intro deg nz0; simp [nzList]
  | cons dep rest ih =>
    intro deg nz0
    rw [List.foldl_cons,
      show kahnDecStep (deg, nz0) dep =
        ((fun x => if x = dep then deg dep - 1 else deg x),
         (if deg dep - 1 = 0 then nz0 ++ [dep] else nz0)) from rfl,
      ih,
      show nzList deg (dep :: rest) =
        (if deg dep - 1 = 0 then [dep] else []) ++
          nzList (fun x => if x = dep then deg dep - 1 else deg x) rest from rfl]
    by_cases hz : deg dep - 1 = 0 <;> simp [hz]

/-- Membership in `nzList`: the degree is positive and consumed in full by
the occurrences. -/
theorem nzList_mem (v : String) : ∀ (ds : List String) (deg : String → Int),
    v ∈ nzList deg ds ↔ (1 ≤ deg v ∧ deg v ≤ ds.count v) := by
  intro ds
  induction ds with
  | nil =>
    intro deg
    simp [nzList]
    omega
  | cons dep rest ih =>
    intro deg
    unfold nzList
    by_cases hv : v = dep
    · subst hv
      rw [List.mem_append, ih]
      by_cases hz : deg v - 1 = 0 <;>
        simp [hz, List.count_cons] <;> omega
    · rw [List.mem_append, ih]
      have hnot : v ∉ (if deg dep - 1 = 0 then [dep] else []) := by
        split <;> simp [hv]
      simp [hnot, List.count_cons, hv, Ne.symm hv]

/-- `nzList` never enqueues the same node twice. -/
theorem nzList_nodup : ∀ (ds : List String) (deg : String → Int),
    (nzList deg ds).Nodup := by
  intro ds
  induction ds with
  | nil => intro deg; simp [nzList]
  | cons dep rest ih =>
    intro deg
    unfold nzList
    by_cases hz : deg dep - 1 = 0
    · rw [if_pos hz]
      refine List.Nodup.append (by simp) (ih _) ?_
      intro a ha hb
      rcases List.mem_singleton.mp ha with rfl
      have := (nzList_mem a rest _).mp hb
      simp [hz] at this
    · rw [if_neg hz]
      simpa using ih _

/-- C5 witness: the amended statement at a concrete two-line script with a
single matching assignment. -/
theorem c5_patch_rewrites_only_matching_line_witness :
    updateParameterInCode "a = 1\nb = 2" "a" (.vint 7) = String.intercalate "\n"
      ([] ++ patchedLine ⟨("a = 1").toList.takeWhile isPySpace⟩ "a" (.vint 7) ::
        ["b = 2"]) :=
  c5_patch_rewrites_only_matching_line "a = 1\nb = 2" "a" (.vint 7) [] ["b = 2"]
    "a = 1" rfl (by decide) (by intro p hp; cases hp) (by
      intro p hp
      rcases List.mem_singleton.mp hp with rfl
      decide)

/-- A count splits along any second predicate. -/
theorem countP_and_split {α : Type} (l : List α) (p q : α → Bool) :
    l.countP p = l.countP (fun a => p a && q a) +
      l.countP (fun a => p a && !(q a)) := by
  induction l with
  | nil => simp
  | cons a l ih =>
    by_cases hp : p a <;> by_cases hq : q a <;>
      simp [List.countP_cons, hp, hq, ih] <;> omega

/-- In-degree minus consumed in-edges is the count of unconsumed in-dict
references. -/
theorem deg_unconsumed (t : FeatureTree) (order : List String) (v : String) :
    inDegree t v - (ordCount t order v : Int) =
    (((nodeRefs t v).countP (fun r =>
      dictContains t.nodes r.featureId && !(decide (r.featureId ∈ order)))) : Int) := by
  rw [inDegree_eq_countP]
  unfold ordCount
  rw [← List.countP_eq_length_filter]
  have h2 := countP_and_split (nodeRefs t v)
    (fun r => dictContains t.nodes r.featureId)
    (fun r => decide (r.featureId ∈ order))
  omega

/-- Appending a fresh element to the order grows each consumed count by the
references targeting it. -/
theorem countP_snoc_mem (P : String → Bool) (c : String) (order : List String)
    (hc : P c = true) (hno : c ∉ order) :
    ∀ l : List FeatureReference,
    l.countP (fun r => P r.featureId && decide (r.featureId ∈ order ++ [c])) =
      l.countP (fun r => P r.featureId && decide (r.featureId ∈ order)) +
      l.countP (fun r => decide (r.featureId = c)) := by
  intro l
  induction l with
  | nil => simp
  | cons r l ih =>
    rw [List.countP_cons, List.countP_cons, List.countP_cons, ih]
    have hm : (decide (r.featureId ∈ order ++ [c]) : Bool) =
        (decide (r.featureId ∈ order) || decide (r.featureId = c)) := by
      simp [List.mem_append]
    by_cases hrc : r.featureId = c
    · have hro : r.featureId ∉ order := hrc ▸ hno
      simp [hm, hrc, hro, hc, hno]
      omega
    · by_cases hro : r.featureId ∈ order
      · simp [hm, hrc, hro]
        omega
      · simp [hm, hrc, hro]

/-- `ordCount` after appending a fresh in-dict id to the order. -/
theorem ordCount_snoc (t : FeatureTree) (order : List String) (c v : String)
    (hc : dictContains t.nodes c = true) (hno : c ∉ order) :
    ordCount t (order ++ [c]) v =
      ordCount t order v +
        (nodeRefs t v).countP (fun r => decide (r.featureId = c)) := by
  unfold ordCount
  rw [← List.countP_eq_length_filter, ← List.countP_eq_length_filter]
  exact countP_snoc_mem _ c order hc hno _

/-- In-degrees are counts, hence nonnegative. -/
theorem inDegree_nonneg (t : FeatureTree) (v : String) : 0 ≤ inDegree t v := by
  unfold inDegree
  cases dictLookup t.nodes v <;> simp

/-- A failed lookup means the key is absent. -/
theorem dictContains_eq_false_of_lookup_none {α : Type}
    {d : List (String × α)} {k : String} (h : dictLookup d k = .none) :
    dictContains d k = false := by
  cases hb : dictContains d k
  · rfl
  · obtain ⟨v, hv⟩ := dictLookup_isSome_of_contains hb
    rw [h] at hv
    cases hv

/-- Rewriting every value leaves the key list unchanged. -/
theorem dictKeys_mapSnd {α β : Type} (d : List (String × α))
    (f : String × α → β) :
    dictKeys (d.map (fun p => (p.1, f p))) = dictKeys d := by
  induction d with
  | nil => rfl
  | cons p rest ih => simp [dictKeys] at ih ⊢

/-- Deleting a key filters it out of the key list. -/
theorem dictKeys_delete {α : Type} (d : List (String × α)) (k : String) :
    dictKeys (dictDelete d k) =
      (dictKeys d).filter (fun x => decide (¬ x = k)) := by
  unfold dictKeys dictDelete
  rw [List.filter_map]
  rfl

/-- Splitting an equality with a one-element right append. -/
theorem append_singleton_decomp {α : Type} {pre post l : List α} {c x : α}
    (h : pre ++ c :: post = l ++ [x]) :
    (∃ post2, l = pre ++ c :: post2 ∧ post = post2 ++ [x]) ∨
    (pre = l ∧ c = x ∧ post = []) := by
  rcases List.eq_nil_or_concat post with rfl | ⟨post0, y, hpost⟩
  rotate_left
  rw [List.concat_eq_append] at hpost
  subst hpost
  rotate_left
  · right
    have h2 : pre ++ [c] = l ++ [x] := by simpa using h
    obtain ⟨h3, h4⟩ := List.append_inj' h2 rfl
    exact ⟨h3, by simpa using h4, rfl⟩
  · left
    have h2 : (pre ++ c :: post0) ++ [y] = l ++ [x] := by
      rw [← h]; simp
    obtain ⟨h3, h4⟩ := List.append_inj' h2 rfl
    have hyx : y = x := by simpa using h4
    exact ⟨post0, h3.symm, by rw [hyx]⟩

/-- An element of the left block indexes before the pivot that is absent
from it. -/
theorem indexOf_append_lt {a b : String} : ∀ (pre post : List String),
    a ∈ pre → b ∉ pre →
    (pre ++ b :: post).indexOf a < (pre ++ b :: post).indexOf b := by
  intro pre
  induction pre with
  | nil => intro post ha _; cases ha
  | cons x pre ih =>
    intro post ha hb
    have hbx : ¬ x = b := fun he => hb (by simp [he])
    by_cases hxa : x = a
    · subst hxa
      simp [List.indexOf_cons, hbx, Ne.symm hbx]
    · have ha2 : a ∈ pre := by
        rcases List.mem_cons.mp ha with rfl | h2
        · exact absurd rfl hxa
        · exact h2
      have hb2 : b ∉ pre := fun h2 => hb (by simp [h2])
      have := ih post ha2 hb2
      simp [List.indexOf_cons, hxa, hbx, Ne.symm hbx, Ne.symm hxa]
      omega

/-- The Kahn invariant holds at the resolver's initial state: empty order,
the zero-in-degree seeds queued, the raw in-degrees as the degree map. -/
theorem kahnInv_init (t : FeatureTree) (hnd : (dictKeys t.nodes).Nodup) :
    KahnInv t ((dictKeys t.nodes).filter (fun v => inDegree t v = 0))
      (inDegree t) [] := by
  refine ⟨?_, ?_, ?_, ?_, ?_, ?_, ?_⟩
  · simpa using hnd.filter _
  · intro v hv
    rw [List.nil_append] at hv
    exact (dictContains_iff_mem_keys _ _).mpr (List.mem_of_mem_filter hv)
  · intro v _
    simp [ordCount]
  · intro v hv
    exact of_decide_eq_true ((List.mem_filter.mp hv).2)
  · intro v hv
    cases hv
  · intro v hv _ hq
    have hk : v ∈ dictKeys t.nodes := (dictContains_iff_mem_keys _ _).mp hv
    have hne : ¬ inDegree t v = 0 := by
      intro h0
      exact hq (List.mem_filter.mpr ⟨hk, by simp [h0]⟩)
    have := inDegree_nonneg t v
    omega
  · unfold TopoOrdered
    intro pre c post heq
    cases pre <;> simp at heq

/-- One pop of the Kahn loop preserves the invariant. -/
theorem kahnInv_step (t : FeatureTree) (hnd : (dictKeys t.nodes).Nodup)
    (current : String) (rest : List String) (deg : String → Int)
    (order : List String)
    (inv : KahnInv t (current :: rest) deg order) :
    KahnInv t
      (rest ++ ((dependencyGraphAt t current).foldl kahnDecStep (deg, [])).2)
      ((dependencyGraphAt t current).foldl kahnDecStep (deg, [])).1
      (order ++ [current]) := by
  have hcur : dictContains t.nodes current = true :=
    inv.mem current (by simp)
  have hno : current ∉ order := by
    have h1 := inv.nodup
    rw [List.nodup_append] at h1
    exact fun hmem => h1.2.2 hmem (by simp)
  have hds : dependencyGraphAt t current = dependentsOf t current := by
    unfold dependencyGraphAt
    rw [if_pos hcur]
  have hdeg : ∀ v,
      ((dependencyGraphAt t current).foldl kahnDecStep (deg, [])).1 v =
      deg v - ((dependentsOf t current).count v : Int) := by
    intro v
    rw [hds]
    exact kahnFold_deg v _ deg []
  have hnz : ((dependencyGraphAt t current).foldl kahnDecStep (deg, [])).2 =
      nzList deg (dependentsOf t current) := by
    rw [hds]
    simpa using kahnFold_nz (dependentsOf t current) deg []
  have hcount : ∀ v, (dependentsOf t current).count v =
      (nodeRefs t v).countP (fun r => decide (r.featureId = current)) :=
    count_dependentsOf t hnd current
  have hdegv : ∀ v, dictContains t.nodes v = true →
      deg v = (((nodeRefs t v).countP (fun r =>
        dictContains t.nodes r.featureId &&
          !(decide (r.featureId ∈ order)))) : Int) := by
    intro v hv
    rw [inv.degEq v hv, deg_unconsumed]
  have hle : ∀ v, ((nodeRefs t v).countP
        (fun r => decide (r.featureId = current)) : Int) ≤
      (((nodeRefs t v).countP (fun r =>
        dictContains t.nodes r.featureId &&
          !(decide (r.featureId ∈ order)))) : Int) := by
    intro v
    have hmono : ∀ r ∈ nodeRefs t v, decide (r.featureId = current) = true →
        (dictContains t.nodes r.featureId &&
          !(decide (r.featureId ∈ order))) = true := by
      intro r _ hr
      have hrc : r.featureId = current := of_decide_eq_true hr
      rw [hrc]
      simp [hcur, hno]
    exact_mod_cast List.countP_mono_left hmono
  have hcnt_le : ∀ v, dictContains t.nodes v = true →
      ((dependentsOf t current).count v : Int) ≤ deg v := by
    intro v hv
    rw [hcount v, hdegv v hv]
    exact hle v
  have hcnt0 : ∀ v, dictContains t.nodes v = false →
      (dependentsOf t current).count v = 0 := by
    intro v hv
    rw [List.count_eq_zero]
    intro hmem
    rw [mem_dependentsOf_contains hmem] at hv
    cases hv
  have hnzmem : ∀ v, v ∈ nzList deg (dependentsOf t current) →
      dictContains t.nodes v = true ∧
        deg v = ((dependentsOf t current).count v : Int) ∧ 1 ≤ deg v := by
    intro v hv
    obtain ⟨h1, h2⟩ := (nzList_mem v _ deg).mp hv
    have hvc : dictContains t.nodes v = true := by
      by_contra hc
      have h0 := hcnt0 v (by revert hc; cases dictContains t.nodes v <;> simp)
      omega
    refine ⟨hvc, ?_, h1⟩
    have := hcnt_le v hvc
    omega
  refine ⟨?_, ?_, ?_, ?_, ?_, ?_, ?_⟩
  · rw [hnz]
    rw [show (order ++ [current]) ++
        (rest ++ nzList deg (dependentsOf t current)) =
        (order ++ current :: rest) ++ nzList deg (dependentsOf t current)
      by simp]
    refine List.Nodup.append inv.nodup (nzList_nodup _ deg) ?_
    intro a haold hanz
    obtain ⟨_, _, h1⟩ := hnzmem a hanz
    rcases List.mem_append.mp haold with h | h
    · have := inv.nonpos a h
      omega
    · have := inv.zeroQ a h
      omega
  · intro v hv
    rw [hnz] at hv
    simp only [List.mem_append, List.mem_singleton] at hv
    rcases hv with (h | rfl) | h | h
    · exact inv.mem v (by simp [h])
    · exact hcur
    · exact inv.mem v (by simp [h])
    · exact (hnzmem v h).1
  · intro v hv
    rw [hdeg v, inv.degEq v hv, ordCount_snoc t order current v hcur hno,
      hcount v]
    push_cast
    omega
  · intro v hv
    rw [hnz] at hv
    rw [hdeg v]
    rcases List.mem_append.mp hv with h | h
    · have h0 := inv.zeroQ v (by simp [h])
      have hvc : dictContains t.nodes v = true := inv.mem v (by simp [h])
      have := hcnt_le v hvc
      have hnn : (0 : Int) ≤ ((dependentsOf t current).count v : Int) := by
        exact_mod_cast Nat.zero_le _
      omega
    · obtain ⟨_, h2, _⟩ := hnzmem v h
      omega
  · intro v hv
    rw [hdeg v]
    have hnn : (0 : Int) ≤ ((dependentsOf t current).count v : Int) := by
      exact_mod_cast Nat.zero_le _
    rcases List.mem_append.mp hv with h | h
    · have := inv.nonpos v h
      omega
    · have hvc : v = current := by simpa using h
      subst hvc
      have h0 := inv.zeroQ v (by simp)
      omega
  · intro v hv hvo hvq
    rw [hdeg v]
    rw [hnz] at hvq
    have hvo2 : v ∉ order := fun h => hvo (by simp [h])
    have hvc2 : ¬ v = current := fun h => hvo (by simp [h])
    have hvr : v ∉ rest := fun h => hvq (by simp [h])
    have hvnz : v ∉ nzList deg (dependentsOf t current) :=
      fun h => hvq (by simp [h])
    have h1 : 1 ≤ deg v := inv.pending v hv hvo2 (by simp [hvr, hvc2])
    have h2 : ¬ (deg v ≤ ((dependentsOf t current).count v : Int)) := by
      intro hle2
      exact hvnz ((nzList_mem v _ deg).mpr ⟨h1, hle2⟩)
    omega
  · unfold TopoOrdered
    intro pre c post heq r hr hcont
    rcases append_singleton_decomp heq.symm with ⟨post2, hord, _⟩ | ⟨hpre, hcc, _⟩
    · exact inv.sorted pre c post2 hord r hr hcont
    · subst hpre
      subst hcc
      have h0 : deg c = 0 := inv.zeroQ c (by simp)
      have hzc : (((nodeRefs t c).countP (fun r =>
          dictContains t.nodes r.featureId &&
            !(decide (r.featureId ∈ pre)))) : Int) = 0 := by
        rw [← hdegv c hcur, h0]
      have hz2 : (nodeRefs t c).countP (fun r =>
          dictContains t.nodes r.featureId &&
            !(decide (r.featureId ∈ pre))) = 0 := by
        exact_mod_cast hzc
      have h3 := List.countP_eq_zero.mp hz2 r hr
      simp [hcont] at h3
      exact h3

/-- With enough fuel, the Kahn loop drains its queue and the invariant
holds of the final order with an empty queue. -/
theorem kahnLoop_inv (t : FeatureTree) (hnd : (dictKeys t.nodes).Nodup) :
    ∀ (fuel : Nat) (queue : List String) (deg : String → Int)
      (order : List String),
    KahnInv t queue deg order →
    (dictKeys t.nodes).length + 1 ≤ fuel + order.length →
    ∃ degf, KahnInv t [] degf (kahnLoop t fuel queue deg order) := by
  intro fuel
  induction fuel with
  | zero =>
    intro queue deg order inv hfuel
    exfalso
    have hsub : (order ++ queue) ⊆ dictKeys t.nodes := by
      intro v hv
      exact (dictContains_iff_mem_keys _ _).mp (inv.mem v hv)
    have hle := (inv.nodup.subperm hsub).length_le
    rw [List.length_append] at hle
    omega
  | succ fuel ih =>
    intro queue deg order inv hfuel
    cases queue with
    | nil =>
      exact ⟨deg, inv⟩
    | cons current rest =>
      rw [show kahnLoop t (fuel + 1) (current :: rest) deg order =
          kahnLoop t fuel
            (rest ++ ((dependencyGraphAt t current).foldl kahnDecStep (deg, [])).2)
            ((dependencyGraphAt t current).foldl kahnDecStep (deg, [])).1
            (order ++ [current]) from rfl]
      refine ih _ _ _ (kahnInv_step t hnd current rest deg order inv) ?_
      rw [List.length_append]
      simp only [List.length_singleton]
      omega

/-- The Kahn phase ends with the invariant at an empty queue. -/
theorem resolveKahn_spec (t : FeatureTree)
    (hnd : (dictKeys t.nodes).Nodup) :
    ∃ degf, KahnInv t [] degf (resolveKahn t) := by
  unfold resolveKahn
  refine kahnLoop_inv t hnd _ _ _ _ (kahnInv_init t hnd) ?_
  have hlen : (dictKeys t.nodes).length = t.nodes.length := by
    simp [dictKeys]
  omega

/-- Under a topological ranking every node id makes it into the Kahn
output. -/
theorem resolveKahn_complete (t : FeatureTree)
    (hnd : (dictKeys t.nodes).Nodup) (hrank : TopoRanked t) :
    ∀ v, dictContains t.nodes v = true → v ∈ resolveKahn t := by
  obtain ⟨degf, inv⟩ := resolveKahn_spec t hnd
  obtain ⟨rank, hrk⟩ := hrank
  have hparent : ∀ v, dictContains t.nodes v = true → v ∉ resolveKahn t →
      ∃ p, EdgeRel t p v ∧ dictContains t.nodes p = true ∧
        p ∉ resolveKahn t := by
    intro v hv hnm
    have hpos : 1 ≤ degf v :=
      inv.pending v hv (by simpa using hnm) (by simp)
    have hform : degf v = (((nodeRefs t v).countP (fun r =>
        dictContains t.nodes r.featureId &&
          !(decide (r.featureId ∈ resolveKahn t)))) : Int) := by
      rw [inv.degEq v hv]
      simpa using deg_unconsumed t (resolveKahn t) v
    have hcp : 0 < (nodeRefs t v).countP (fun r =>
        dictContains t.nodes r.featureId &&
          !(decide (r.featureId ∈ resolveKahn t))) := by
      omega
    obtain ⟨r, hr, hrp⟩ := List.countP_pos_iff.mp hcp
    have hrc : dictContains t.nodes r.featureId = true ∧
        r.featureId ∉ resolveKahn t := by
      constructor
      · revert hrp
        cases dictContains t.nodes r.featureId <;> simp
      · intro hmem
        rw [show (decide (r.featureId ∈ resolveKahn t)) = true
          from decide_eq_true hmem] at hrp
        simp at hrp
    obtain ⟨n, hlk⟩ := dictLookup_isSome_of_contains hv
    have hmemn : (v, n) ∈ t.nodes := mem_of_dictLookup hlk
    have hrefs : nodeRefs t v = n.parentReferences := by
      unfold nodeRefs
      rw [hlk]
    refine ⟨r.featureId, ⟨n, hmemn, ⟨r, ?_, rfl⟩, hrc.1⟩, hrc.1, hrc.2⟩
    rw [← hrefs]
    exact hr
  have key : ∀ b v, dictContains t.nodes v = true → rank v ≤ b →
      v ∈ resolveKahn t := by
    intro b
    induction b with
    | zero =>
      intro v hv hrv
      by_contra hnm
      obtain ⟨p, hedge, _, _⟩ := hparent v hv hnm
      have := hrk p v hedge
      omega
    | succ b ihb =>
      intro v hv hrv
      by_contra hnm
      obtain ⟨p, hedge, hpc, hpn⟩ := hparent v hv hnm
      have hlt := hrk p v hedge
      exact hpn (ihb p hpc (by omega))
  intro v hv
  exact key (rank v) v hv (le_refl _)

/-- Under a topological ranking the Kahn output is a permutation of the
node keys. -/
theorem resolveKahn_perm (t : FeatureTree)
    (hnd : (dictKeys t.nodes).Nodup) (hrank : TopoRanked t) :
    (resolveKahn t).Perm (dictKeys t.nodes) := by
  obtain ⟨degf, inv⟩ := resolveKahn_spec t hnd
  have h1 : (resolveKahn t).Nodup := by
    simpa using inv.nodup
  have hsub : resolveKahn t ⊆ dictKeys t.nodes := by
    intro v hv
    exact (dictContains_iff_mem_keys _ _).mp (inv.mem v (by simpa using hv))
  have hsup : dictKeys t.nodes ⊆ resolveKahn t := by
    intro v hv
    exact resolveKahn_complete t hnd hrank v
      ((dictContains_iff_mem_keys _ _).mpr hv)
  exact (h1.subperm hsub).antisymm (hnd.subperm hsup)

/-- The Kahn output is always topologically ordered. -/
theorem resolveKahn_sorted (t : FeatureTree)
    (hnd : (dictKeys t.nodes).Nodup) :
    TopoOrdered t (resolveKahn t) := by
  obtain ⟨degf, inv⟩ := resolveKahn_spec t hnd
  exact inv.sorted

/-- A full-length Kahn output certifies a topological ranking (its own
indices). -/
theorem topoRanked_of_complete (t : FeatureTree)
    (hnd : (dictKeys t.nodes).Nodup)
    (hlen : (resolveKahn t).length = t.nodes.length) :
    TopoRanked t := by
  obtain ⟨degf, inv⟩ := resolveKahn_spec t hnd
  have h1 : (resolveKahn t).Nodup := by
    simpa using inv.nodup
  have hsub : resolveKahn t ⊆ dictKeys t.nodes := by
    intro v hv
    exact (dictContains_iff_mem_keys _ _).mp (inv.mem v (by simpa using hv))
  have hklen : (dictKeys t.nodes).length = t.nodes.length := by
    simp [dictKeys]
  have hperm : (resolveKahn t).Perm (dictKeys t.nodes) :=
    (h1.subperm hsub).perm_of_length_le (by omega)
  refine ⟨fun v => (resolveKahn t).indexOf v, ?_⟩
  intro p c hedge
  obtain ⟨n, hmem, ⟨r, hr, hrf⟩, hpc⟩ := hedge
  have hcmem : c ∈ resolveKahn t := by
    rw [hperm.mem_iff]
    exact (dictContains_iff_mem_keys _ _).mp (dictContains_of_mem hmem)
  obtain ⟨pre, post, hdec⟩ := List.append_of_mem hcmem
  have hlkc : dictLookup t.nodes c = .some n := dictLookup_of_mem_nodup hnd hmem
  have hrefs : nodeRefs t c = n.parentReferences := by
    unfold nodeRefs
    rw [hlkc]
  have hppre : p ∈ pre := by
    have := inv.sorted pre c post hdec r (by rw [hrefs]; exact hr)
      (by rw [hrf]; exact hpc)
    rw [hrf] at this
    exact this
  have hcpre : c ∉ pre := by
    rw [hdec] at h1
    rw [List.nodup_append] at h1
    exact fun hcp => h1.2.2 hcp (by simp)
  rw [hdec]
  exact indexOf_append_lt pre post hppre hcpre

/-- C2: on a tree with duplicate-free node keys whose parent references all
target present nodes and whose parent-reference graph is acyclic (admits a
topological ranking), the resolver's output is a permutation of
`nodes.keys()` in which every node appears strictly after each node
targeted by its parent references. -/
theorem c2_resolver_topological (t : FeatureTree)
    (hnd : (dictKeys t.nodes).Nodup)
    (hclosed : RefsClosed t)
    (hrank : TopoRanked t) :
    (resolveDependencies t).Perm (dictKeys t.nodes) ∧
    ∀ pre c post, resolveDependencies t = pre ++ c :: post →
      ∀ r ∈ nodeRefs t c, r.featureId ∈ pre := by
  have hperm := resolveKahn_perm t hnd hrank
  have hlen : (resolveKahn t).length = t.nodes.length := by
    rw [hperm.length_eq]
    simp [dictKeys]
  have hres : resolveDependencies t = resolveKahn t := by
    show (if (resolveKahn t).length ≠ t.nodes.length then t.regenerationOrder
          else resolveKahn t) = resolveKahn t
    exact if_neg (fun hne => hne hlen)
  constructor
  · rw [hres]
    exact hperm
  · intro pre c post hdec r hr
    have hcont : dictContains t.nodes r.featureId = true := by
      cases hlk : dictLookup t.nodes c with
      | none =>
        rw [show nodeRefs t c = [] from by unfold nodeRefs; rw [hlk]] at hr
        cases hr
      | some n =>
        refine hclosed (c, n) (mem_of_dictLookup hlk) r ?_
        rw [show nodeRefs t c = n.parentReferences from by
          unfold nodeRefs; rw [hlk]] at hr
        exact hr
    exact resolveKahn_sorted t hnd pre c post (by rw [← hres]; exact hdec)
      r hr hcont

/-- C2 witness: the three hypotheses and the conclusion at the concrete
workplane→box→box chain, with an explicit topological ranking. -/
theorem c2_resolver_topological_witness :
    ((dictKeys chainTree.nodes).Nodup ∧ RefsClosed chainTree ∧
      TopoRanked chainTree) ∧
    (resolveDependencies chainTree).Perm (dictKeys chainTree.nodes) ∧
    (∀ pre c post, resolveDependencies chainTree = pre ++ c :: post →
      ∀ r ∈ nodeRefs chainTree c, r.featureId ∈ pre) := by
  have hrank : TopoRanked chainTree := by
    refine ⟨fun v => if v = "w" then 0 else if v = "b1" then 1 else 2, ?_⟩
    rintro p c ⟨n, hmem, ⟨r, hr, hrf⟩, hcont⟩
    simp [chainTree] at hmem
    rcases hmem with ⟨rfl, rfl⟩ | ⟨rfl, rfl⟩ | ⟨rfl, rfl⟩
    · simp [mkNode] at hr
    · simp [mkNode] at hr
      subst hr
      simp [fref] at hrf
      subst hrf
      decide
    · simp [mkNode] at hr
      subst hr
      simp [fref] at hrf
      subst hrf
      decide
  have hcl : RefsClosed chainTree := by
    unfold RefsClosed
    decide
  have hnd : (dictKeys chainTree.nodes).Nodup := by decide
  exact ⟨⟨hnd, hcl, hrank⟩, c2_resolver_topological chainTree hnd hcl hrank⟩

/-- C3 (amended): on every tree with duplicate-free node keys whose
parent-reference graph has no topological ranking (a cycle), the resolver
raises nothing — there is no `CycleError` — and `_resolve_dependencies`
itself returns the tree's stored regeneration order as the fallback; the
caller performs no recovery. -/
theorem c3_cyclic_tree_gets_fallback (t : FeatureTree)
    (hnd : (dictKeys t.nodes).Nodup) (hcyc : ¬ TopoRanked t) :
    resolveDependencies t = t.regenerationOrder := by
  show (if (resolveKahn t).length ≠ t.nodes.length then t.regenerationOrder
        else resolveKahn t) = t.regenerationOrder
  exact if_pos (fun h => hcyc (topoRanked_of_complete t hnd h))

/-- C3 witness: the two-node cycle has no topological ranking, and the
resolver hands back the stored order. -/
theorem c3_cyclic_tree_gets_fallback_witness :
    ((dictKeys cycleTree.nodes).Nodup ∧ ¬ TopoRanked cycleTree) ∧
    resolveDependencies cycleTree = cycleTree.regenerationOrder := by
  have hcyc : ¬ TopoRanked cycleTree := by
    rintro ⟨rank, hrk⟩
    have h1 := hrk "a" "b" ⟨mkNode "b" .box ["a"], by simp [cycleTree],
      ⟨fref "a", by simp [mkNode], rfl⟩, rfl⟩
    have h2 := hrk "b" "a" ⟨mkNode "a" .box ["b"], by simp [cycleTree],
      ⟨fref "b", by simp [mkNode], rfl⟩, rfl⟩
    omega
  exact ⟨⟨by decide, hcyc⟩,
    c3_cyclic_tree_gets_fallback cycleTree (by decide) hcyc⟩

/-- The final phase of one `remove_node` step keeps the tree well-formed
and expels the removed id. -/
theorem removeFinal_wf (t1 : FeatureTree) (nodeId : String)
    (hwf1 : TreeWF t1) :
    TreeWF { t1 with
      nodes := dictDelete (t1.nodes.map (fun p => (p.1,
        { p.2 with childIds := p.2.childIds.erase nodeId }))) nodeId,
      regenerationOrder := t1.regenerationOrder.erase nodeId,
      rootNodeId := if t1.rootNodeId = .some nodeId
                    then (t1.regenerationOrder.erase nodeId).head?
                    else t1.rootNodeId } ∧
    dictContains (dictDelete (t1.nodes.map (fun p => (p.1,
      { p.2 with childIds := p.2.childIds.erase nodeId }))) nodeId)
      nodeId = false := by
  obtain ⟨hk, hr, hrk, hkr, hch⟩ := hwf1
  have hkeys3 : dictKeys (dictDelete (t1.nodes.map (fun p => (p.1,
      { p.2 with childIds := p.2.childIds.erase nodeId }))) nodeId) =
      (dictKeys t1.nodes).filter (fun x => decide (¬ x = nodeId)) := by
    rw [dictKeys_delete, dictKeys_mapSnd]
  have hnotin : nodeId ∉ dictKeys (dictDelete (t1.nodes.map (fun p => (p.1,
      { p.2 with childIds := p.2.childIds.erase nodeId }))) nodeId) := by
    rw [hkeys3]
    intro hmem
    have := (List.mem_filter.mp hmem).2
    simp at this
  have hcont3 : dictContains (dictDelete (t1.nodes.map (fun p => (p.1,
      { p.2 with childIds := p.2.childIds.erase nodeId }))) nodeId)
      nodeId = false := by
    cases hb : dictContains (dictDelete (t1.nodes.map (fun p => (p.1,
        { p.2 with childIds := p.2.childIds.erase nodeId }))) nodeId) nodeId
    · rfl
    · exact absurd ((dictContains_iff_mem_keys _ _).mp hb) hnotin
  refine ⟨⟨?_, ?_, ?_, ?_, ?_⟩, hcont3⟩
  · rw [hkeys3]
    exact hk.filter _
  · exact hr.erase _
  · intro k hkm
    obtain ⟨hne, hmem⟩ := (hr.mem_erase_iff).mp hkm
    rw [hkeys3]
    exact List.mem_filter.mpr ⟨hrk k hmem, by simp [hne]⟩
  · intro k hkm
    rw [hkeys3] at hkm
    obtain ⟨hmem, hpred⟩ := List.mem_filter.mp hkm
    have hne : ¬ k = nodeId := by simpa using hpred
    exact (hr.mem_erase_iff).mpr ⟨hne, hkr k hmem⟩
  · intro p hp
    have hp2 := List.mem_of_mem_filter hp
    obtain ⟨q, hq, hqe⟩ := List.mem_map.mp hp2
    obtain ⟨hqn, hqc⟩ := hch q hq
    subst hqe
    refine ⟨hqn.erase _, ?_⟩
    intro c hc
    obtain ⟨hcne, hcm⟩ := (hqn.mem_erase_iff).mp hc
    have hcold := hqc c hcm
    have hck : c ∈ dictKeys t1.nodes := (dictContains_iff_mem_keys _ _).mp hcold
    refine (dictContains_iff_mem_keys _ _).mpr ?_
    rw [hkeys3]
    exact List.mem_filter.mpr ⟨hck, by simp [hcne]⟩

/-- Any terminating `remove_node` keeps a well-formed tree well-formed and
removes the target key. -/
theorem removeNodeFuel_wf : ∀ fuel (t : FeatureTree) (nodeId : String)
    (t' : FeatureTree), TreeWF t → removeNodeFuel fuel t nodeId = .some t' →
    TreeWF t' ∧ dictContains t'.nodes nodeId = false := by
  intro fuel
  induction fuel with
  | zero => intro t nodeId t' _ h; simp [removeNodeFuel] at h
  | succ fuel ih =>
    have hfold : ∀ (cs : List String) (t0 t1 : FeatureTree), TreeWF t0 →
        cs.foldl (fun acc c => Option.bind acc
          (fun tc => removeNodeFuel fuel tc c)) (.some t0) = .some t1 →
        TreeWF t1 := by
      intro cs
      induction cs with
      | nil => intro t0 t1 hwf h; cases h; exact hwf
      | cons c cs ihc =>
        intro t0 t1 hwf h
        simp only [List.foldl_cons, Option.some_bind] at h
        cases hr : removeNodeFuel fuel t0 c with
        | none =>
          rw [hr] at h
          rw [foldl_bind_none] at h
          cases h
        | some tm =>
          rw [hr] at h
          exact ihc tm t1 (ih t0 c tm hwf hr).1 h
    intro t nodeId t' hwf h
    unfold removeNodeFuel at h
    split at h
    · rename_i hl
      cases h
      exact ⟨hwf, dictContains_eq_false_of_lookup_none hl⟩
    · rename_i node hl
      split at h
      · cases h
      · rename_i t1 hf
        cases h
        exact removeFinal_wf t1 nodeId (hfold node.childIds t t1 hwf hf)

/-- A Boolean consequence flipped: if `b` forces `a` and `a` is false,
`b` is false. -/
theorem contains_of_imp_false {a b : Bool} (h : b = true → a = true)
    (ha : a = false) : b = false := by
  cases hb : b
  · rfl
  · rw [h hb] at ha
    cases ha

/-- Lookup through the child-erasing rewrite of `remove_node`. -/
theorem dictLookup_eraseMap (d : List (String × FeatureNode)) (x k : String) :
    dictLookup (d.map (fun p => (p.1,
      { p.2 with childIds := p.2.childIds.erase x }))) k =
    (dictLookup d k).map
      (fun n0 => { n0 with childIds := n0.childIds.erase x }) := by
  induction d with
  | nil => rfl
  | cons p rest ih =>
    rw [List.map_cons, dictLookup_cons, dictLookup_cons]
    by_cases hp : p.1 = k <;> simp [hp, ih]

/-- Deleting one key leaves every other lookup unchanged. -/
theorem dictLookup_delete_ne {α : Type} (d : List (String × α)) (x k : String)
    (hne : ¬ k = x) :
    dictLookup (dictDelete d x) k = dictLookup d k := by
  induction d with
  | nil => rfl
  | cons p rest ih =>
    by_cases hp : p.1 = x
    · have h1 : dictDelete (p :: rest) x = dictDelete rest x := by
        unfold dictDelete
        rw [List.filter_cons, if_neg (by simp [hp])]
      rw [h1, ih, dictLookup_cons,
        if_neg (fun (he : p.1 = k) => hne (he ▸ hp))]
    · have h1 : dictDelete (p :: rest) x = p :: dictDelete rest x := by
        unfold dictDelete
        rw [List.filter_cons, if_pos (by simp [hp])]
      rw [h1, dictLookup_cons, dictLookup_cons]
      by_cases hpk : p.1 = k <;> simp [hpk, ih]

/-- The deleted key is gone. -/
theorem dictContains_delete_self {α : Type} (d : List (String × α))
    (x : String) : dictContains (dictDelete d x) x = false := by
  cases hb : dictContains (dictDelete d x) x
  · rfl
  · have hm := (dictContains_iff_mem_keys _ _).mp hb
    rw [dictKeys_delete] at hm
    have := (List.mem_filter.mp hm).2
    simp at this

/-- The final phase of `remove_node` only shrinks the key set. -/
theorem removeFinal_mono (t1 : FeatureTree) (x k : String)
    (h : dictContains (dictDelete (t1.nodes.map (fun p => (p.1,
      { p.2 with childIds := p.2.childIds.erase x }))) x) k = true) :
    dictContains t1.nodes k = true := by
  have hk := (dictContains_iff_mem_keys _ _).mp h
  rw [dictKeys_delete, dictKeys_mapSnd] at hk
  exact (dictContains_iff_mem_keys _ _).mpr (List.mem_of_mem_filter hk)

/-- The final phase of `remove_node` deletes only the removed key. -/
theorem removeFinal_mono_rev (t1 : FeatureTree) (x k : String)
    (hne : ¬ k = x) (h : dictContains t1.nodes k = true) :
    dictContains (dictDelete (t1.nodes.map (fun p => (p.1,
      { p.2 with childIds := p.2.childIds.erase x }))) x) k = true := by
  refine (dictContains_iff_mem_keys _ _).mpr ?_
  rw [dictKeys_delete, dictKeys_mapSnd]
  exact List.mem_filter.mpr ⟨(dictContains_iff_mem_keys _ _).mp h,
    by simp [hne]⟩

/-- `remove_node` never adds a key: whatever is present afterwards was
present before. -/
theorem removeNodeFuel_mono : ∀ fuel (t : FeatureTree) (x : String)
    (t2 : FeatureTree), removeNodeFuel fuel t x = .some t2 →
    ∀ k, dictContains t2.nodes k = true → dictContains t.nodes k = true := by
  intro fuel
  induction fuel with
  | zero => intro t x t2 h; simp [removeNodeFuel] at h
  | succ fuel ih =>
    have hfold : ∀ (cs : List String) (t0 t1 : FeatureTree),
        cs.foldl (fun acc c => Option.bind acc
          (fun tc => removeNodeFuel fuel tc c)) (.some t0) = .some t1 →
        ∀ k, dictContains t1.nodes k = true →
          dictContains t0.nodes k = true := by
      intro cs
      induction cs with
      | nil => intro t0 t1 h k hk; cases h; exact hk
      | cons c cs ihc =>
        intro t0 t1 h k hk
        simp only [List.foldl_cons, Option.some_bind] at h
        cases hr : removeNodeFuel fuel t0 c with
        | none =>
          rw [hr] at h
          rw [foldl_bind_none] at h
          cases h
        | some tm =>
          rw [hr] at h
          exact ih t0 c tm hr k (ihc tm t1 h k hk)
    intro t x t2 h
    unfold removeNodeFuel at h
    split at h
    · cases h
      exact fun k hk => hk
    · rename_i node hl
      split at h
      · cases h
      · rename_i t1 hf
        cases h
        intro k hk
        exact hfold node.childIds t t1 hf k (removeFinal_mono t1 x k hk)

/-- The children-removal fold never adds a key either. -/
theorem removeChildren_mono (fuel : Nat) : ∀ (cs : List String)
    (t0 t1 : FeatureTree),
    cs.foldl (fun acc c => Option.bind acc
      (fun tc => removeNodeFuel fuel tc c)) (.some t0) = .some t1 →
    ∀ k, dictContains t1.nodes k = true → dictContains t0.nodes k = true := by
  intro cs
  induction cs with
  | nil => intro t0 t1 h k hk; cases h; exact hk
  | cons c cs ihc =>
    intro t0 t1 h k hk
    simp only [List.foldl_cons, Option.some_bind] at h
    cases hr : removeNodeFuel fuel t0 c with
    | none =>
      rw [hr] at h
      rw [foldl_bind_none] at h
      cases h
    | some tm =>
      rw [hr] at h
      exact removeNodeFuel_mono fuel t0 c tm hr k (ihc tm t1 h k hk)

/-- An edge surviving a removal: when the edge's source is still present
afterwards, either the edge itself survived or its target was deleted
(a child entry is erased only by its own node's removal). -/
theorem removeNodeFuel_edge : ∀ fuel (t : FeatureTree) (x : String)
    (t2 : FeatureTree), removeNodeFuel fuel t x = .some t2 →
    ∀ a n c, dictLookup t.nodes a = .some n → c ∈ n.childIds →
      dictContains t2.nodes a = true →
      (∃ n2, dictLookup t2.nodes a = .some n2 ∧ c ∈ n2.childIds) ∨
      dictContains t2.nodes c = false := by
  intro fuel
  induction fuel with
  | zero => intro t x t2 h; simp [removeNodeFuel] at h
  | succ fuel ih =>
    have hEF : ∀ (cs : List String) (u0 u1 : FeatureTree),
        cs.foldl (fun acc c0 => Option.bind acc
          (fun tc => removeNodeFuel fuel tc c0)) (.some u0) = .some u1 →
        ∀ a n c, dictLookup u0.nodes a = .some n → c ∈ n.childIds →
          dictContains u1.nodes a = true →
          (∃ n2, dictLookup u1.nodes a = .some n2 ∧ c ∈ n2.childIds) ∨
          dictContains u1.nodes c = false := by
      intro cs
      induction cs with
      | nil =>
        intro u0 u1 h a n c hlk hc _
        cases h
        exact .inl ⟨n, hlk, hc⟩
      | cons c0 cs ihc =>
        intro u0 u1 h a n c hlk hc hu1a
        simp only [List.foldl_cons, Option.some_bind] at h
        cases hr : removeNodeFuel fuel u0 c0 with
        | none =>
          rw [hr] at h
          rw [foldl_bind_none] at h
          cases h
        | some um =>
          rw [hr] at h
          have huma : dictContains um.nodes a = true :=
            removeChildren_mono fuel cs um u1 h a hu1a
          rcases ih u0 c0 um hr a n c hlk hc huma with ⟨n2, hlk2, hc2⟩ | habs
          · exact ihc um u1 h a n2 c hlk2 hc2 hu1a
          · exact .inr (contains_of_imp_false
              (removeChildren_mono fuel cs um u1 h c) habs)
    intro t x t2 h a n c hlk hc hta
    unfold removeNodeFuel at h
    split at h
    · cases h
      exact .inl ⟨n, hlk, hc⟩
    · rename_i node hl
      split at h
      · cases h
      · rename_i t1 hf
        cases h
        have hta2 : dictContains (dictDelete (t1.nodes.map (fun p => (p.1,
            { p.2 with childIds := p.2.childIds.erase x }))) x) a = true := hta
        have ht1a : dictContains t1.nodes a = true := removeFinal_mono t1 x a hta2
        rcases hEF node.childIds t t1 hf a n c hlk hc ht1a with
          ⟨n2, hlk2, hc2⟩ | habs
        · have hax : ¬ a = x := by
            intro he
            rw [he, dictContains_delete_self] at hta2
            cases hta2
          by_cases hcx : c = x
          · have hgone : dictContains (dictDelete (t1.nodes.map (fun p =>
                (p.1, { p.2 with childIds := p.2.childIds.erase x }))) x)
                c = false := by
              rw [hcx]
              exact dictContains_delete_self _ x
            exact .inr hgone
          · have hfin : dictLookup (dictDelete (t1.nodes.map (fun p => (p.1,
                { p.2 with childIds := p.2.childIds.erase x }))) x) a =
                .some { n2 with childIds := n2.childIds.erase x } := by
              rw [dictLookup_delete_ne _ x a hax, dictLookup_eraseMap, hlk2]
              rfl
            exact .inl ⟨{ n2 with childIds := n2.childIds.erase x }, hfin,
              (List.mem_erase_of_ne hcx).mpr hc2⟩
        · exact .inr (contains_of_imp_false (removeFinal_mono t1 x c) habs)

/-- After the children-removal fold, every snapshotted child is gone. -/
theorem removeChildren_gone (fuel : Nat) : ∀ (cs : List String)
    (u0 u1 : FeatureTree), TreeWF u0 →
    cs.foldl (fun acc c0 => Option.bind acc
      (fun tc => removeNodeFuel fuel tc c0)) (.some u0) = .some u1 →
    ∀ c ∈ cs, dictContains u1.nodes c = false := by
  intro cs
  induction cs with
  | nil => intro u0 u1 _ _ c hc; cases hc
  | cons c0 cs ihc =>
    intro u0 u1 hwf h c hc
    simp only [List.foldl_cons, Option.some_bind] at h
    cases hr : removeNodeFuel fuel u0 c0 with
    | none =>
      rw [hr] at h
      rw [foldl_bind_none] at h
      cases h
    | some um =>
      rw [hr] at h
      obtain ⟨hwfm, habs0⟩ := removeNodeFuel_wf fuel u0 c0 um hwf hr
      rcases List.mem_cons.mp hc with rfl | hcs
      · exact contains_of_imp_false (removeChildren_mono fuel cs um u1 h c)
          habs0
      · exact ihc um u1 hwfm h c hcs

/-- Every child of the removed node (as snapshotted at call time) is gone
afterwards. -/
theorem removeNodeFuel_children_gone : ∀ fuel (t : FeatureTree) (x : String)
    (t2 : FeatureTree), TreeWF t → removeNodeFuel fuel t x = .some t2 →
    ∀ n, dictLookup t.nodes x = .some n → ∀ c ∈ n.childIds,
      dictContains t2.nodes c = false := by
  intro fuel
  cases fuel with
  | zero => intro t x t2 _ h; simp [removeNodeFuel] at h
  | succ fuel =>
    intro t x t2 hwf h n hn c hc
    unfold removeNodeFuel at h
    split at h
    · rename_i hl
      rw [hl] at hn
      cases hn
    · rename_i node hl
      rw [hl] at hn
      injection hn with hn2
      split at h
      · cases h
      · rename_i t1 hf
        cases h
        exact contains_of_imp_false (removeFinal_mono t1 x c)
          (removeChildren_gone fuel node.childIds t t1 hwf hf c
            (hn2.symm ▸ hc))

/-- Deletion propagates down an edge of the original tree: if the source
of an edge ends up deleted, so does its target. -/
theorem removeNodeFuel_propagate : ∀ fuel (t : FeatureTree) (x : String)
    (t2 : FeatureTree), TreeWF t → removeNodeFuel fuel t x = .some t2 →
    ∀ a n c, dictLookup t.nodes a = .some n → c ∈ n.childIds →
      dictContains t2.nodes a = false → dictContains t2.nodes c = false := by
  intro fuel
  induction fuel with
  | zero => intro t x t2 _ h; simp [removeNodeFuel] at h
  | succ fuel ih =>
    have hPF : ∀ (cs : List String) (u0 u1 : FeatureTree), TreeWF u0 →
        cs.foldl (fun acc c0 => Option.bind acc
          (fun tc => removeNodeFuel fuel tc c0)) (.some u0) = .some u1 →
        ∀ a n c, dictLookup u0.nodes a = .some n → c ∈ n.childIds →
          dictContains u1.nodes a = false →
          dictContains u1.nodes c = false := by
      intro cs
      induction cs with
      | nil =>
        intro u0 u1 _ h a n c hlk _ habs
        cases h
        rw [dictContains_of_mem (mem_of_dictLookup hlk)] at habs
        cases habs
      | cons c0 cs ihc =>
        intro u0 u1 hwf h a n c hlk hc habs
        simp only [List.foldl_cons, Option.some_bind] at h
        cases hr : removeNodeFuel fuel u0 c0 with
        | none =>
          rw [hr] at h
          rw [foldl_bind_none] at h
          cases h
        | some um =>
          rw [hr] at h
          obtain ⟨hwfm, _⟩ := removeNodeFuel_wf fuel u0 c0 um hwf hr
          cases hma : dictContains um.nodes a with
          | false =>
            have hcum : dictContains um.nodes c = false :=
              ih u0 c0 um hwf hr a n c hlk hc hma
            exact contains_of_imp_false
              (removeChildren_mono fuel cs um u1 h c) hcum
          | true =>
            rcases removeNodeFuel_edge fuel u0 c0 um hr a n c hlk hc hma with
              ⟨n2, hlk2, hc2⟩ | hcum
            · exact ihc um u1 hwfm h a n2 c hlk2 hc2 habs
            · exact contains_of_imp_false
                (removeChildren_mono fuel cs um u1 h c) hcum
    intro t x t2 hwf h a n c hlk hc habs
    unfold removeNodeFuel at h
    split at h
    · cases h
      rw [dictContains_of_mem (mem_of_dictLookup hlk)] at habs
      cases habs
    · rename_i node hl
      split at h
      · cases h
      · rename_i t1 hf
        cases h
        by_cases hax : a = x
        · rw [hax, hl] at hlk
          injection hlk with he
          exact contains_of_imp_false (removeFinal_mono t1 x c)
            (removeChildren_gone fuel node.childIds t t1 hwf hf c
              (he.symm ▸ hc))
        · have habs2 : dictContains (dictDelete (t1.nodes.map (fun p => (p.1,
              { p.2 with childIds := p.2.childIds.erase x }))) x) a =
              false := habs
          have ht1a : dictContains t1.nodes a = false := by
            cases hb : dictContains t1.nodes a
            · rfl
            · rw [removeFinal_mono_rev t1 x a hax hb] at habs2
              cases habs2
          exact contains_of_imp_false (removeFinal_mono t1 x c)
            (hPF node.childIds t t1 hwf hf a n c hlk hc ht1a)

/-- Every node transitively reachable from the removed one through
`child_ids` is gone after a terminating `remove_node`. -/
theorem removeNodeFuel_descendants_gone (fuel : Nat) (t : FeatureTree)
    (x : String) (t2 : FeatureTree) (hwf : TreeWF t)
    (h : removeNodeFuel fuel t x = .some t2) :
    ∀ d, Descendant t x d → dictContains t2.nodes d = false := by
  intro d hd
  induction hd with
  | child c n hlk hc =>
    exact removeNodeFuel_children_gone fuel t x t2 hwf h n hlk c hc
  | step a c n _ hlk hc iha =>
    exact removeNodeFuel_propagate fuel t x t2 hwf h a n c hlk hc iha

/-- C10 (amended): on a well-formed tree state — duplicate-free node keys,
duplicate-free regeneration order set-equal to the keys, duplicate-free
child lists naming only present nodes — every terminating `remove_node`
run deletes the target id and every node transitively reachable from it
via `child_ids`, leaves the removed id in no remaining node's `child_ids`
(indeed every remaining child entry names a present node), and preserves
the regeneration-order/keys set-equality. -/
theorem c10_remove_node_postconditions (fuel : Nat) (t : FeatureTree)
    (nodeId : String) (t2 : FeatureTree) (hwf : TreeWF t)
    (h : removeNodeFuel fuel t nodeId = .some t2) :
    dictContains t2.nodes nodeId = false ∧
    (∀ d, Descendant t nodeId d → dictContains t2.nodes d = false) ∧
    (∀ p ∈ t2.nodes, nodeId ∉ (p : String × FeatureNode).2.childIds) ∧
    (∀ p ∈ t2.nodes, ∀ c ∈ (p : String × FeatureNode).2.childIds,
      dictContains t2.nodes c = true) ∧
    (∀ k, k ∈ t2.regenerationOrder ↔ k ∈ dictKeys t2.nodes) := by
  obtain ⟨hwf2, hcont⟩ := removeNodeFuel_wf fuel t nodeId t2 hwf h
  obtain ⟨_, _, h3, h4, h5⟩ := hwf2
  refine ⟨hcont,
    removeNodeFuel_descendants_gone fuel t nodeId t2 hwf h, ?_, ?_, ?_⟩
  · intro p hp hmem
    have hcc := (h5 p hp).2 nodeId hmem
    rw [hcont] at hcc
    cases hcc
  · intro p hp c hc
    exact (h5 p hp).2 c hc
  · intro k
    exact ⟨h3 k, h4 k⟩

/-- C10 witness: removing the root of the well-formed two-node
parent/child tree empties it and every postcondition holds — in
particular the child `s`, a descendant of `w`, is gone. -/
theorem c10_remove_node_postconditions_witness :
    (TreeWF c10WitTree ∧
      removeNodeFuel 3 c10WitTree "w" = .some c10WitResult ∧
      Descendant c10WitTree "w" "s") ∧
    dictContains c10WitResult.nodes "w" = false ∧
    (∀ d, Descendant c10WitTree "w" d →
      dictContains c10WitResult.nodes d = false) ∧
    dictContains c10WitResult.nodes "s" = false ∧
    (∀ p ∈ c10WitResult.nodes,
      "w" ∉ (p : String × FeatureNode).2.childIds) ∧
    (∀ p ∈ c10WitResult.nodes, ∀ c ∈ (p : String × FeatureNode).2.childIds,
      dictContains c10WitResult.nodes c = true) ∧
    (∀ k, k ∈ c10WitResult.regenerationOrder ↔
      k ∈ dictKeys c10WitResult.nodes) := by
  have hwf : TreeWF c10WitTree := by
    unfold TreeWF
    decide
  have hdesc : Descendant c10WitTree "w" "s" :=
    .child "s" { mkNode "w" .workplane [] with childIds := ["s"] } rfl
      (by simp)
  have hmain := c10_remove_node_postconditions 3 c10WitTree "w" c10WitResult
    hwf rfl
  exact ⟨⟨hwf, rfl, hdesc⟩, hmain.1, hmain.2.1, hmain.2.1 "s" hdesc,
    hmain.2.2.1, hmain.2.2.2.1, hmain.2.2.2.2⟩

/-- C6 (amended — the rewrite is scenario-conditional, not universal, and
`INTERSECTION` falls through to generic emission, see the counterexample):
on the claim's scenario tree (workplane → box → fillet, plus a second box,
the boolean node referencing the fillet and the second box), the
`UNION`/`DIFFERENCE` emission's base operand is the variable `box` of the
fillet's own volumetric parent — never the `fillet` variable — and the
fillet statement appears on an earlier output line.  The bypass fires only
when the pre-surface-op parent's variable is already emitted: on the same
scenario extended with an unrelated reference cycle, whose stored
regeneration order (taken by the resolver's fallback) lists the union
before the pre-fillet box, the rewrite is silently skipped — the union
line carries placeholder operands, not `box`, and the fillet line comes
*after* the union. -/
theorem c6_union_difference_use_prefillet_operands :
    ((generateCadqueryCode (c6Tree .union) =
      .ok "import cadquery as cq\n\nworkplane = cq.Workplane('XY')\nbox = workplane.box(1, 1, 1)\nbox_1 = workplane.box(1, 1, 1)\nfillet = box.edges().fillet(0.1)\nunion = box.union(box_1)\n\nresult = union" ∧
     generateCadqueryCode (c6Tree .difference) =
      .ok "import cadquery as cq\n\nworkplane = cq.Workplane('XY')\nbox = workplane.box(1, 1, 1)\nbox_1 = workplane.box(1, 1, 1)\nfillet = box.edges().fillet(0.1)\ndifference = box.cut(box_1)\n\nresult = difference") ∧
    (dictLookup (genPairs (c6Tree .union)
        (resolveDependencies (c6Tree .union)) []).2.1 "b1" = .some "box" ∧
     dictLookup (genPairs (c6Tree .union)
        (resolveDependencies (c6Tree .union)) []).2.1 "f" = .some "fillet") ∧
    ((splitLines "import cadquery as cq\n\nworkplane = cq.Workplane('XY')\nbox = workplane.box(1, 1, 1)\nbox_1 = workplane.box(1, 1, 1)\nfillet = box.edges().fillet(0.1)\nunion = box.union(box_1)\n\nresult = union")[5]? =
        .some "fillet = box.edges().fillet(0.1)" ∧
     (splitLines "import cadquery as cq\n\nworkplane = cq.Workplane('XY')\nbox = workplane.box(1, 1, 1)\nbox_1 = workplane.box(1, 1, 1)\nfillet = box.edges().fillet(0.1)\nunion = box.union(box_1)\n\nresult = union")[6]? =
        .some "union = box.union(box_1)" ∧
     (splitLines "import cadquery as cq\n\nworkplane = cq.Workplane('XY')\nbox = workplane.box(1, 1, 1)\nbox_1 = workplane.box(1, 1, 1)\nfillet = box.edges().fillet(0.1)\ndifference = box.cut(box_1)\n\nresult = difference")[6]? =
        .some "difference = box.cut(box_1)")) ∧
    (resolveKahn c6SkipTree = ["w", "b1", "b2", "f", "u"] ∧
     resolveDependencies c6SkipTree =
       ["w", "u", "b1", "b2", "f", "x", "y"] ∧
     generateCadqueryCode c6SkipTree =
      .ok "import cadquery as cq\n\nworkplane = cq.Workplane('XY')\nunion = workplane.union(cq.Workplane().box(1, 1, 1))\nbox = workplane.box(1, 1, 1)\nbox_1 = workplane.box(1, 1, 1)\nfillet = box.edges().fillet(0.1)\nbox_2 = fillet.box(1, 1, 1)\nbox_3 = box_2.box(1, 1, 1)\n\nresult = union" ∧
     (splitLines "import cadquery as cq\n\nworkplane = cq.Workplane('XY')\nunion = workplane.union(cq.Workplane().box(1, 1, 1))\nbox = workplane.box(1, 1, 1)\nbox_1 = workplane.box(1, 1, 1)\nfillet = box.edges().fillet(0.1)\nbox_2 = fillet.box(1, 1, 1)\nbox_3 = box_2.box(1, 1, 1)\n\nresult = union")[3]? =
        .some "union = workplane.union(cq.Workplane().box(1, 1, 1))" ∧
     (splitLines "import cadquery as cq\n\nworkplane = cq.Workplane('XY')\nunion = workplane.union(cq.Workplane().box(1, 1, 1))\nbox = workplane.box(1, 1, 1)\nbox_1 = workplane.box(1, 1, 1)\nfillet = box.edges().fillet(0.1)\nbox_2 = fillet.box(1, 1, 1)\nbox_3 = box_2.box(1, 1, 1)\n\nresult = union")[6]? =
        .some "fillet = box.edges().fillet(0.1)") :=
  ⟨⟨⟨rfl, rfl⟩, ⟨rfl, rfl⟩, rfl, rfl, rfl⟩, rfl, rfl, rfl, rfl, rfl⟩

/-- C1 (amended, second half): `validate_tree` never inspects parameter
values, so passing it guarantees neither generation success nor
parseability — beyond the raising counterexample, here a validated tree on
which `generate` returns normally but the returned text is not lexically
valid Python: the vector3d-typed global parameter's quoted string is
interpolated raw by `str()`, leaving an unterminated string literal on the
parameter line. -/
theorem c1_validated_tree_emits_lexically_broken_code :
    FeatureTree.validateTree c1InjectTree = [] ∧
    generateCadqueryCode c1InjectTree =
      .ok "import cadquery as cq\n\n# Global parameters\np = a'b\n\nworkplane = cq.Workplane('XY')\n\nresult = workplane" ∧
    pythonLexOk "import cadquery as cq\n\n# Global parameters\np = a'b\n\nworkplane = cq.Workplane('XY')\n\nresult = workplane" = false :=
  ⟨rfl, rfl, by decide⟩

end Makistry
